import Mathlib

/-!
Verification of the lobby/connection broker of the goat-in-the-shell backend.

The development shallowly embeds the Python ConnectionManager of src/api/main.py
(dictionaries become association lists, websockets become natural-number
connection identifiers, wall-clock instants become integers), the per-connection
message router of the websocket endpoint, the command pipeline of
src/api/ai_handler.py, and - modelled from the written design, since the
corresponding source is not part of the repository snapshot - the single-player
director task. Theorems at the end settle the behavioural properties of the
design document against these embeddings.
-/

namespace GoatShell

/-! ### Association lists

Python dictionaries are embedded as association lists with the three operations
used by the broker: lookup, update-or-add (assignment) and deletion. As in a
dictionary, assignment replaces the binding in place and deletion removes it.
-/

def alookup {α β : Type} [DecidableEq α] (k : α) : List (α × β) → Option β
  | [] => none
  | (k', v) :: l => if k' = k then some v else alookup k l

def aset {α β : Type} [DecidableEq α] (k : α) (v : β) : List (α × β) → List (α × β)
  | [] => [(k, v)]
  | (k', v') :: l => if k' = k then (k, v) :: l else (k', v') :: aset k v l

def aerase {α β : Type} [DecidableEq α] (k : α) : List (α × β) → List (α × β)
  | [] => []
  | (k', v') :: l => if k' = k then l else (k', v') :: aerase k l

/-- A well-formed dictionary binds each key at most once. -/
@[reducible] def KeysNodup {α β : Type} (l : List (α × β)) : Prop := (l.map Prod.fst).Nodup

variable {α β : Type} [DecidableEq α]

theorem alookup_aset_self (k : α) (v : β) (l : List (α × β)) :
    alookup k (aset k v l) = some v := by
  induction l with
  | nil => simp [aset, alookup]
  | cons p l ih =>
    obtain ⟨k', v'⟩ := p
    by_cases h : k' = k
    · simp [aset, h, alookup]
    · simp [aset, h, alookup, ih]

theorem alookup_aset_ne {k k' : α} (h : k' ≠ k) (v : β) (l : List (α × β)) :
    alookup k' (aset k v l) = alookup k' l := by
  have hks : ¬ k = k' := fun he => h he.symm
  induction l with
  | nil => simp [aset, alookup, hks]
  | cons p l ih =>
    obtain ⟨k'', v''⟩ := p
    by_cases h2 : k'' = k
    · subst h2
      simp [aset, alookup, hks]
    · simp only [aset, if_neg h2, alookup]
      by_cases h3 : k'' = k'
      · simp [h3]
      · simp [h3, ih]

theorem alookup_aerase_ne {k k' : α} (h : k' ≠ k) (l : List (α × β)) :
    alookup k' (aerase k l) = alookup k' l := by
  induction l with
  | nil => simp [aerase]
  | cons p l ih =>
    obtain ⟨k'', v''⟩ := p
    by_cases h2 : k'' = k
    · subst h2
      have hks : ¬ k'' = k' := fun he => h he.symm
      simp [aerase, alookup, hks]
    · simp only [aerase, if_neg h2, alookup]
      by_cases h3 : k'' = k'
      · simp [h3]
      · simp [h3, ih]

theorem aerase_sublist (k : α) (l : List (α × β)) : (aerase k l).Sublist l := by
  induction l with
  | nil => simp [aerase]
  | cons p l ih =>
    obtain ⟨k', v'⟩ := p
    by_cases h : k' = k
    · simp only [aerase, if_pos h]
      exact List.sublist_cons_self _ _
    · simp only [aerase, if_neg h]
      exact ih.cons₂ _

theorem keysNodup_aerase (k : α) {l : List (α × β)} (h : KeysNodup l) :
    KeysNodup (aerase k l) :=
  ((aerase_sublist k l).map Prod.fst).nodup h

theorem alookup_eq_none_of_not_mem_keys {k : α} {l : List (α × β)}
    (h : k ∉ l.map Prod.fst) : alookup k l = none := by
  induction l with
  | nil => simp [alookup]
  | cons p l ih =>
    obtain ⟨k', v'⟩ := p
    simp only [List.map_cons, List.mem_cons, not_or] at h
    have hk : ¬ k' = k := fun he => h.1 he.symm
    simp only [alookup, if_neg hk]
    exact ih h.2

theorem alookup_aerase_self {k : α} {l : List (α × β)} (h : KeysNodup l) :
    alookup k (aerase k l) = none := by
  induction l with
  | nil => simp [aerase, alookup]
  | cons p l ih =>
    obtain ⟨k', v'⟩ := p
    simp only [KeysNodup, List.map_cons, List.nodup_cons] at h
    by_cases h2 : k' = k
    · subst h2
      simp only [aerase, if_pos rfl]
      exact alookup_eq_none_of_not_mem_keys h.1
    · simp only [aerase, if_neg h2, alookup, if_neg h2]
      exact ih h.2

theorem mem_keys_aset {k k' : α} {v : β} {l : List (α × β)} :
    k' ∈ (aset k v l).map Prod.fst ↔ k' = k ∨ k' ∈ l.map Prod.fst := by
  induction l with
  | nil => simp [aset]
  | cons p l ih =>
    obtain ⟨k'', v''⟩ := p
    by_cases h2 : k'' = k
    · subst h2
      simp only [aset, if_pos rfl, List.map_cons, List.mem_cons, if_true, eq_self_iff_true]
      tauto
    · simp only [aset, if_neg h2, List.map_cons, List.mem_cons, ih]
      tauto

theorem keysNodup_aset (k : α) (v : β) {l : List (α × β)} (h : KeysNodup l) :
    KeysNodup (aset k v l) := by
  induction l with
  | nil => simp [aset, KeysNodup]
  | cons p l ih =>
    obtain ⟨k', v'⟩ := p
    simp only [KeysNodup, List.map_cons, List.nodup_cons] at h
    by_cases h2 : k' = k
    · subst h2
      simpa [aset, KeysNodup] using h
    · simp only [aset, if_neg h2, KeysNodup, List.map_cons, List.nodup_cons]
      refine ⟨fun hm => ?_, ih h.2⟩
      rcases mem_keys_aset.mp hm with he | hm2
      · exact h2 he
      · exact h.1 hm2

theorem alookup_none_aerase {k : α} {l : List (α × β)} (h : alookup k l = none) :
    aerase k l = l := by
  induction l with
  | nil => simp [aerase]
  | cons p l ih =>
    obtain ⟨k', v'⟩ := p
    simp only [alookup] at h
    by_cases h2 : k' = k
    · simp [h2] at h
    · simp only [aerase, if_neg h2]
      rw [ih (by simpa [h2] using h)]

theorem aerase_aset {k : α} (v : β) {l : List (α × β)} (h : KeysNodup l) :
    aerase k (aset k v l) = aerase k l := by
  induction l with
  | nil => simp [aset, aerase]
  | cons p l ih =>
    obtain ⟨k', v'⟩ := p
    simp only [KeysNodup, List.map_cons, List.nodup_cons] at h
    by_cases h2 : k' = k
    · subst h2
      simp [aset, aerase]
    · simp only [aset, if_neg h2, aerase, if_neg h2]
      rw [ih h.2]

theorem alookup_some_mem {k : α} {v : β} {l : List (α × β)}
    (h : alookup k l = some v) : (k, v) ∈ l := by
  induction l with
  | nil => simp [alookup] at h
  | cons p l ih =>
    obtain ⟨k', v'⟩ := p
    simp only [alookup] at h
    by_cases h2 : k' = k
    · subst h2
      simp only [if_true, eq_self_iff_true, Option.some.injEq] at h
      subst h
      exact List.mem_cons_self _ _
    · exact List.mem_cons_of_mem _ (ih (by simpa [h2] using h))

theorem mem_alookup_of_keysNodup {k : α} {v : β} {l : List (α × β)}
    (hnd : KeysNodup l) (h : (k, v) ∈ l) : alookup k l = some v := by
  induction l with
  | nil => simp at h
  | cons p l ih =>
    obtain ⟨k', v'⟩ := p
    simp only [KeysNodup, List.map_cons, List.nodup_cons] at hnd
    rcases List.mem_cons.mp h with h1 | h1
    · rw [Prod.mk.injEq] at h1
      simp [alookup, h1.1, h1.2]
    · have hk : k' ≠ k := by
        intro he
        subst he
        exact hnd.1 (by simpa using List.mem_map_of_mem Prod.fst h1)
      simp only [alookup, if_neg hk]
      exact ih hnd.2 h1

/-- A helper for rewriting a count of one predicate into a count of another
when they agree on every element of the list. -/
theorem countP_congr_eq {γ : Type} {p q : γ → Bool} :
    ∀ {l : List γ}, (∀ a ∈ l, p a = q a) → l.countP p = l.countP q := by
  intro l
  induction l with
  | nil => simp
  | cons a l ih =>
    intro h
    simp only [List.countP_cons, h a (List.mem_cons_self a l),
      ih (fun b hb => h b (List.mem_cons_of_mem a hb))]

/-! ### Data model of the connection manager

ManagerState mirrors the five dictionaries of ConnectionManager in
src/api/main.py. Websocket objects are represented by their connection
identities (Nat, standing in for str(id(websocket))); event-loop instants are
integers.
-/

/-- Per-lobby metadata, mirroring the dict stored in ConnectionManager.lobby_info. -/
structure LobbyInfo where
  created_at : Int
  player_count : Int
  has_goat : Bool
  has_prompter : Bool
deriving DecidableEq, Repr

/-- The five dictionaries of ConnectionManager (src/api/main.py, lines 50-56). -/
structure ManagerState where
  active_connections : List (String × List Nat)
  lobby_codes : List (Nat × String)
  player_roles : List (Nat × String)
  last_activity : List (String × Int)
  lobby_info : List (String × LobbyInfo)
deriving DecidableEq, Repr

/-- The state built by ConnectionManager.init: every dictionary empty. -/
def initState : ManagerState := ⟨[], [], [], [], []⟩

/-! ### Command pipeline (src/api/ai_handler.py)

The OpenAI collaborator is abstracted as its observable outcome: either the
call raises (Except.error, covering errors, timeouts and misconfiguration) or
it returns a chat message carrying optional content and a list of tool calls.
JSON-decoding of tool-call arguments may itself fail, which the source catches
as json.JSONDecodeError; a failed decode is Option.none here.
-/

/-- One parameter modification, mirroring the ParameterModification schema. -/
structure ParamMod where
  parameter : String
  normalized_value : Rat
deriving DecidableEq, Repr

/-- The structured result dictionary returned by AIHandler.process_command.
The response is optional because message.content can be Python None. -/
structure CmdResult where
  response : Option String
  success : Bool
  parameter_modifications : List ParamMod
deriving DecidableEq, Repr

/-- One entry of the parameter_modifications array of a decoded tool call.
Fields are optional to mirror dict.get returning None; a list entry that is
not a dict at all is represented upstream as Option.none. -/
structure ModArg where
  parameter : Option String
  normalized_value : Option Rat
deriving DecidableEq, Repr

/-- Decoded arguments of a tool call: the response text (dict.get with default
empty string) and the raw modification list, where none marks a non-dict entry. -/
structure ArgsObj where
  response : String
  parameter_modifications : List (Option ModArg)
deriving DecidableEq, Repr

/-- One tool call of the chat response; arguments is none when json.loads
raises JSONDecodeError on the argument text. -/
structure ToolCall where
  name : String
  arguments : Option ArgsObj
deriving DecidableEq, Repr

/-- The chat message returned by the OpenAI client. -/
structure LLMMessage where
  content : Option String
  tool_calls : List ToolCall
deriving DecidableEq, Repr

/-- Clamping of a normalized value into the closed interval from -1 to 1,
mirroring max(-1.0, min(1.0, float(value))) in ai_handler.py. -/
def clamp (v : Rat) : Rat := max (-1) (min 1 v)

/-- Validation loop over a parameter_modifications array: skip non-dict
entries, keep entries whose parameter is truthy and whose value is numeric,
clamping the value (ai_handler.py, lines 311-324). -/
def validateMods : List (Option ModArg) → List ParamMod
  | [] => []
  | none :: rest => validateMods rest
  | some m :: rest =>
    match m.parameter, m.normalized_value with
    | some p, some v =>
      if p = "" then validateMods rest
      else ⟨p, clamp v⟩ :: validateMods rest
    | _, _ => validateMods rest

/-- Python expression a or b for optional strings: the fallback is used when
the first operand is None or the empty (falsy) string. -/
def orElseStr (a : Option String) (b : String) : String :=
  match a with
  | some s => if s = "" then b else s
  | none => b

/-- The body of the try block of AIHandler.process_command. An Except.error
value stands for an exception propagating out of the block: either the OpenAI
call raising, or the NameError raised when the tool-call loop finishes without
ever assigning ai_response (tool calls present but none named
modify_parameters after a successful decode). -/
def processBody (clientConfigured : Bool) (call : Except String LLMMessage) :
    Except String CmdResult :=
  if clientConfigured = false then
    Except.ok ⟨some "AI service is currently unavailable. Please check the server configuration.",
      false, []⟩
  else
    match call with
    | Except.error e => Except.error e
    | Except.ok msg =>
      match msg.tool_calls with
      | [] => Except.ok ⟨msg.content, true, []⟩
      | tc0 :: tcs =>
        let step := fun (acc : Option String × List ParamMod) (tc : ToolCall) =>
          if tc.name = "modify_parameters" then
            match tc.arguments with
            | some args => (some args.response, acc.2 ++ validateMods args.parameter_modifications)
            | none =>
              (some (orElseStr msg.content
                "I understood your request but couldn't process the parameters correctly."),
               acc.2)
          else acc
        match (tc0 :: tcs).foldl step (none, []) with
        | (some r, mods) => Except.ok ⟨some r, true, mods⟩
        | (none, _) => Except.error "name 'ai_response' is not defined"

/-- AIHandler.process_command: the try body guarded by the outer except, which
converts any escaping exception into a degraded result with success false. -/
def process_command (clientConfigured : Bool) (call : Except String LLMMessage) : CmdResult :=
  match processBody clientConfigured call with
  | Except.ok r => r
  | Except.error e => ⟨some ("Error processing command: " ++ e), false, []⟩

/-! ### Outbound traffic -/

/-- Server-to-client message payloads, by envelope type. -/
inductive OutMsg where
  | systemMessage (text : String)
  | playerJoined (role : String)
  | errorMsg (text : String)
  | commandResult (r : CmdResult)
  | pong (timestamp : Int)
  | sessionToken
  | lobbyReady
deriving DecidableEq, Repr

/-- An observable delivery action of the broker. -/
inductive OutEvent where
  | personal (conn : Nat) (msg : OutMsg)
  | bcast (lobby : String) (msg : OutMsg)
  | closeConn (conn : Nat) (reason : String)
deriving DecidableEq, Repr

/-! ### Broadcaster (ConnectionManager.broadcast, src/api/main.py lines 179-189)

The for loop with its per-connection try/except is embedded as sendLoop: the
fails argument tells which transports raise on send_json; a raising send is
caught and the loop continues with the next connection. The loop yields the
list of attempted connections (each one attempted exactly once, in list
order) and the list of actual deliveries.
-/

def sendLoop (fails : Nat → Bool) (m : OutMsg) : List Nat → List Nat × List (Nat × OutMsg)
  | [] => ([], [])
  | c :: rest =>
    let r := sendLoop fails m rest
    (c :: r.1, if fails c then r.2 else (c, m) :: r.2)

/-- The state effect of a broadcast: when the lobby exists, its activity
timestamp is refreshed (line 189); otherwise nothing happens. -/
def broadcastState (st : ManagerState) (lobby_code : String) (now : Int) : ManagerState :=
  match alookup lobby_code st.active_connections with
  | some _ => { st with last_activity := aset lobby_code now st.last_activity }
  | none => st

/-- Full broadcast: resulting state, attempted connections, and deliveries. -/
def broadcast (st : ManagerState) (lobby_code : String) (m : OutMsg) (now : Int)
    (fails : Nat → Bool) : ManagerState × List Nat × List (Nat × OutMsg) :=
  match alookup lobby_code st.active_connections with
  | some conns =>
    let r := sendLoop fails m conns
    (broadcastState st lobby_code now, r.1, r.2)
  | none => (st, [], [])

/-! ### Admission (ConnectionManager.connect, src/api/main.py lines 58-128) -/

/-- Result of a connect call: admission with the new registry state and the
notification broadcasts, rejection carrying the close reason and the registry
state left behind, or an uncaught KeyError (lobby_info out of sync with
active_connections; unreachable from reachable states). -/
inductive ConnectRes where
  | admitted (st : ManagerState) (events : List OutEvent)
  | rejected (reason : String) (st : ManagerState)
  | keyError
deriving DecidableEq, Repr

/-- Metadata update of an admission (src/api/main.py lines 88-94): the player
count is incremented and the flag of an exclusive role is raised. -/
def admitInfo (role : String) (i : LobbyInfo) : LobbyInfo :=
  let i2 := { i with player_count := i.player_count + 1 }
  if role = "goat" then { i2 with has_goat := true }
  else if role = "prompter" then { i2 with has_prompter := true }
  else i2

/-- Lobby creation on first contact (lines 63-71): an empty member list and
fresh metadata; note that no activity entry is written yet. -/
def createState (st : ManagerState) (lobby_code : String) (now : Int) : ManagerState :=
  { st with
    active_connections := aset lobby_code [] st.active_connections
    lobby_info := aset lobby_code ⟨now, 0, false, false⟩ st.lobby_info }

/-- The registry state after a successful admission, before the two
notification broadcasts: connection appended to the lobby list, both
connection mappings set, player count incremented, role flag raised,
activity stamped (lines 84-97). -/
def admitStateCore (st1 : ManagerState) (conn : Nat) (lobby_code role : String)
    (now : Int) (cs : List Nat) (i : LobbyInfo) : ManagerState :=
  { active_connections := aset lobby_code (cs ++ [conn]) st1.active_connections
    lobby_codes := aset conn lobby_code st1.lobby_codes
    player_roles := aset conn role st1.player_roles
    last_activity := aset lobby_code now st1.last_activity
    lobby_info := aset lobby_code (admitInfo role i) st1.lobby_info }

/-- Role-conflict check and admission on the state st1 in which the lobby is
guaranteed a member list (lines 73-128; st1 is the state right after the
lobby-creation step). -/
def connectAfter (st1 : ManagerState) (conn : Nat) (lobby_code role : String) (now : Int) :
    ConnectRes :=
  match alookup lobby_code st1.lobby_info, alookup lobby_code st1.active_connections with
  | some i, some cs =>
    if role = "goat" ∧ i.has_goat = true then
      ConnectRes.rejected "Goat role already taken in this lobby" st1
    else if role = "prompter" ∧ i.has_prompter = true then
      ConnectRes.rejected "Prompter role already taken in this lobby" st1
    else
      let st2 := admitStateCore st1 conn lobby_code role now cs i
      let st3 := broadcastState st2 lobby_code now
      let st4 := broadcastState st3 lobby_code now
      ConnectRes.admitted st4
        [OutEvent.bcast lobby_code (OutMsg.systemMessage ("Player joined as " ++ role)),
         OutEvent.bcast lobby_code (OutMsg.playerJoined role)]
  | _, _ => ConnectRes.keyError

/-- ConnectionManager.connect. Creates the lobby on first contact, rejects a
second goat or prompter with the close reason of the source, otherwise admits
and issues the two notification broadcasts (which re-stamp the activity
timestamp through the broadcast path). -/
def connect (st : ManagerState) (conn : Nat) (lobby_code role : String) (now : Int) :
    ConnectRes :=
  match alookup lobby_code st.active_connections with
  | some _ => connectAfter st conn lobby_code role now
  | none => connectAfter (createState st lobby_code now) conn lobby_code role now

/-! ### Removal (ConnectionManager.disconnect, src/api/main.py lines 130-177) -/

/-- Result of a disconnect call: the new state and any notification broadcast,
or an uncaught KeyError at the player-count decrement (lobby_info out of sync;
unreachable from reachable states). -/
inductive DisconnectRes where
  | ok (st : ManagerState) (events : List OutEvent)
  | keyError
deriving DecidableEq, Repr

/-- Metadata update of a removal (src/api/main.py lines 141-145): the player
count is decremented and the flag of the leaving role is cleared. The role is
optional because the source reads it with dict.get. -/
def removeInfo (role? : Option String) (i : LobbyInfo) : LobbyInfo :=
  let i2 := { i with player_count := i.player_count - 1 }
  if role? = some "goat" then { i2 with has_goat := false }
  else if role? = some "prompter" then { i2 with has_prompter := false }
  else i2

/-- The inner removal block of disconnect (lines 136-169): when the connection
is actually listed in its lobby, remove it, update the count and the flag of
its role, delete the lobby entirely if it became empty, and otherwise notify
the remaining members (which stamps the activity timestamp). -/
def disconnectInner (st : ManagerState) (conn : Nat) (lobby_code : String) (now : Int) :
    DisconnectRes :=
  let role? := alookup conn st.player_roles
  match alookup lobby_code st.active_connections with
  | some cs =>
    if conn ∈ cs then
      match alookup lobby_code st.lobby_info with
      | none => DisconnectRes.keyError
      | some i =>
        let cs2 := cs.erase conn
        if cs2 = [] then
          DisconnectRes.ok
            { st with
              active_connections := aerase lobby_code st.active_connections
              last_activity := aerase lobby_code st.last_activity
              lobby_info := aerase lobby_code st.lobby_info } []
        else
          let stA :=
            { st with
              active_connections := aset lobby_code cs2 st.active_connections
              lobby_info := aset lobby_code (removeInfo role? i) st.lobby_info }
          DisconnectRes.ok (broadcastState stA lobby_code now)
            [OutEvent.bcast lobby_code (OutMsg.systemMessage "Player disconnected")]
    else DisconnectRes.ok st []
  | none => DisconnectRes.ok st []

/-- ConnectionManager.disconnect. The outer guard is Python truthiness on the
looked-up lobby code, so a missing mapping or the empty string skips
everything; otherwise the inner removal block runs and the two connection
mappings are cleaned up in every inner case. -/
def disconnect (st : ManagerState) (conn : Nat) (now : Int) : DisconnectRes :=
  match alookup conn st.lobby_codes with
  | none => DisconnectRes.ok st []
  | some lobby_code =>
    if lobby_code = "" then DisconnectRes.ok st []
    else
      match disconnectInner st conn lobby_code now with
      | DisconnectRes.keyError => DisconnectRes.keyError
      | DisconnectRes.ok stI evs =>
        DisconnectRes.ok
          { stI with
            lobby_codes := aerase conn stI.lobby_codes
            player_roles := aerase conn stI.player_roles } evs

/-! ### Idle reaper (ConnectionManager.cleanup_inactive_lobbies, lines 213-249) -/

/-- Processing of one stale lobby inside the removal loop: when the lobby is
still present, broadcast the shutdown notice (refreshing its timestamp),
force-close every member (exceptions caught; no registry effect), delete the
lobby from the connection and metadata dictionaries; in every case delete its
activity entry. -/
def cleanupOne (now : Int) (st : ManagerState) (lobby_code : String) : ManagerState :=
  let st1 :=
    match alookup lobby_code st.active_connections with
    | some _ =>
      let stB := broadcastState st lobby_code now
      { stB with
        active_connections := aerase lobby_code stB.active_connections
        lobby_info := aerase lobby_code stB.lobby_info }
    | none => st
  { st1 with last_activity := aerase lobby_code st1.last_activity }

/-- ConnectionManager.cleanup_inactive_lobbies: snapshot the stale lobbies
(strictly idle for longer than maxIdle), then purge each in turn. -/
def cleanup_inactive_lobbies (st : ManagerState) (now : Int) (maxIdle : Int) : ManagerState :=
  let toRemove := (st.last_activity.filter (fun p => decide (maxIdle < now - p.2))).map Prod.fst
  toRemove.foldl (cleanupOne now) st

/-! ### Lobby code generation (ConnectionManager.generate_lobby_code, lines 205-211)

The while-True loop draws random candidate strings; the draws argument is the
stream of candidates the random source would produce. A none result means the
supplied stream was consumed with every candidate colliding - the Python loop
would still be running, waiting for further draws; there is no failure exit.
-/

def generate_lobby_code (st : ManagerState) : List String → Option String
  | [] => none
  | c :: rest =>
    if (alookup c st.active_connections).isSome then generate_lobby_code st rest
    else some c

/-- The alphabet used by the generator. -/
def codeAlphabet : String := "ABCDEFGHIJKLMNOPQRSTUVWXYZ0123456789"

/-- A candidate the random source can produce: six characters drawn from the
uppercase-plus-digits alphabet. -/
def ValidDraw (s : String) : Prop :=
  s.length = 6 ∧ ∀ ch ∈ s.data, ch ∈ codeAlphabet.data

/-! ### Lobby lookup (check_lobby endpoint, src/api/main.py lines 348-366) -/

/-- Response of the check-lobby endpoint. -/
structure CheckLobbyRes where
  lobbyExists : Bool
  player_count : Int
  has_goat : Bool
  has_prompter : Bool
deriving DecidableEq, Repr

/-- The check-lobby endpoint: existence is membership in active_connections;
occupancy data is read from lobby_info with falsy defaults. -/
def check_lobby (st : ManagerState) (lobby_code : String) : CheckLobbyRes :=
  match alookup lobby_code st.active_connections with
  | some _ =>
    match alookup lobby_code st.lobby_info with
    | some i => ⟨true, i.player_count, i.has_goat, i.has_prompter⟩
    | none => ⟨true, 0, false, false⟩
  | none => ⟨false, 0, false, false⟩

/-! ### Message router (websocket_endpoint receive loop, lines 479-581)

One inbound envelope is dispatched against the current registry state. The
interp argument abstracts the awaited AIHandler.process_command call for
envelopes of type command: ok is a returned result, error an exception caught
by the surrounding try. The router only ever closes a connection through
exceptions of the receive call itself, never from dispatch; every dispatch
path falls through to the next receive, so the returned state and event list
capture the entire effect of one loop iteration.
-/

/-- An inbound envelope: its type tag and the fields the router reads. -/
structure InMsg where
  mtype : String
  command : String
  timestamp : Int
  requestLobbyInfo : Bool
deriving DecidableEq, Repr

/-- The reply sent for an envelope whose type the router does not recognize. -/
def unknownMsgText : String :=
  "This server only handles lobby management and AI commands. Game state messages should be sent to the game server."

def handleMessage (st : ManagerState) (conn : Nat) (m : InMsg) (now : Int)
    (interp : Except String CmdResult) : ManagerState × List OutEvent :=
  let lobby? := alookup conn st.lobby_codes
  let role? := alookup conn st.player_roles
  if m.mtype = "start_game" then
    if role? ≠ some "prompter" then
      (st, [OutEvent.personal conn (OutMsg.errorMsg "Only host can start the game")])
    else
      match lobby? with
      | some L =>
        match alookup L st.lobby_info with
        | some i =>
          if i.has_goat = true ∧ i.has_prompter = true then
            (broadcastState st L now, [OutEvent.bcast L OutMsg.lobbyReady])
          else
            (st, [OutEvent.personal conn
              (OutMsg.errorMsg "Cannot ready lobby: need both goat and prompter players")])
        | none =>
          (st, [OutEvent.personal conn
            (OutMsg.errorMsg "Cannot ready lobby: need both goat and prompter players")])
      | none =>
        (st, [OutEvent.personal conn
          (OutMsg.errorMsg "Cannot ready lobby: need both goat and prompter players")])
  else if m.mtype = "command" then
    if role? ≠ some "prompter" ∧ role? ≠ some "spectator" then
      (st, [OutEvent.personal conn (OutMsg.errorMsg "Only prompter can send commands")])
    else
      match interp with
      | Except.ok r => (st, [OutEvent.personal conn (OutMsg.commandResult r)])
      | Except.error e =>
        (st, [OutEvent.personal conn (OutMsg.errorMsg ("Error processing command: " ++ e))])
  else if m.mtype = "ping" then
    let base := [OutEvent.personal conn (OutMsg.pong m.timestamp)]
    if m.requestLobbyInfo then
      (st, base ++ [OutEvent.personal conn (OutMsg.systemMessage "Lobby status update")])
    else (st, base)
  else if m.mtype = "get_session_token" then
    (st, [OutEvent.personal conn OutMsg.sessionToken])
  else
    (st, [OutEvent.personal conn (OutMsg.errorMsg unknownMsgText)])

/-! ### Reachable registry states and the registry invariant -/

/-- Whether a connection currently holds a given role. -/
def isRole (st : ManagerState) (r : String) (c : Nat) : Bool :=
  decide (alookup c st.player_roles = some r)

/-- The registry consistency invariant: well-formed dictionaries, the three
lobby-keyed dictionaries share their domain, every listed member is mapped
back to its lobby, member lists are duplicate-free, and each lobby's metadata
agrees with its member list - the player count is the list length and each
exclusive-role flag is raised exactly when exactly one member holds the role. -/
structure Inv (st : ManagerState) : Prop where
  nodupAC : KeysNodup st.active_connections
  nodupLC : KeysNodup st.lobby_codes
  nodupPR : KeysNodup st.player_roles
  nodupLA : KeysNodup st.last_activity
  nodupLI : KeysNodup st.lobby_info
  domInfo : ∀ L, (alookup L st.active_connections).isSome ↔ (alookup L st.lobby_info).isSome
  domAct : ∀ L, (alookup L st.active_connections).isSome ↔ (alookup L st.last_activity).isSome
  bound : ∀ L cs c, alookup L st.active_connections = some cs → c ∈ cs →
    alookup c st.lobby_codes = some L
  nodupConns : ∀ L cs, alookup L st.active_connections = some cs → cs.Nodup
  counts : ∀ L cs i, alookup L st.active_connections = some cs →
    alookup L st.lobby_info = some i →
    i.player_count = (cs.length : Int) ∧
    cs.countP (isRole st "goat") = (if i.has_goat then 1 else 0) ∧
    cs.countP (isRole st "prompter") = (if i.has_prompter then 1 else 0)

/-- Registry states reachable from the freshly initialized manager by any
interleaving of admissions, rejected admissions, disconnections and idle
sweeps. A connecting transport is fresh: its identity is not currently mapped
(identities of live websocket objects are distinct). -/
inductive Reach : ManagerState → Prop where
  | init : Reach initState
  | connectAdmitted (st : ManagerState) (conn : Nat) (lobby_code role : String) (now : Int)
      (st2 : ManagerState) (evs : List OutEvent) :
      Reach st → alookup conn st.lobby_codes = none →
      connect st conn lobby_code role now = ConnectRes.admitted st2 evs → Reach st2
  | connectRejected (st : ManagerState) (conn : Nat) (lobby_code role : String) (now : Int)
      (reason : String) (st2 : ManagerState) :
      Reach st → alookup conn st.lobby_codes = none →
      connect st conn lobby_code role now = ConnectRes.rejected reason st2 → Reach st2
  | disconnectStep (st : ManagerState) (conn : Nat) (now : Int)
      (st2 : ManagerState) (evs : List OutEvent) :
      Reach st → disconnect st conn now = DisconnectRes.ok st2 evs → Reach st2
  | cleanupStep (st : ManagerState) (now maxIdle : Int) :
      Reach st → Reach (cleanup_inactive_lobbies st now maxIdle)

/-! ### Small facts about the metadata transformers -/

theorem admitInfo_player_count (role : String) (i : LobbyInfo) :
    (admitInfo role i).player_count = i.player_count + 1 := by
  unfold admitInfo
  by_cases h : role = "goat"
  · simp [h]
  · by_cases h2 : role = "prompter" <;> simp [h, h2]

theorem admitInfo_has_goat (role : String) (i : LobbyInfo) :
    (admitInfo role i).has_goat = (i.has_goat || decide (role = "goat")) := by
  unfold admitInfo
  by_cases h : role = "goat"
  · simp [h]
  · by_cases h2 : role = "prompter" <;> simp [h, h2]

theorem admitInfo_has_prompter (role : String) (i : LobbyInfo) :
    (admitInfo role i).has_prompter = (i.has_prompter || decide (role = "prompter")) := by
  unfold admitInfo
  by_cases h : role = "goat"
  · simp [h]
  · by_cases h2 : role = "prompter" <;> simp [h, h2]

theorem removeInfo_player_count (role? : Option String) (i : LobbyInfo) :
    (removeInfo role? i).player_count = i.player_count - 1 := by
  unfold removeInfo
  by_cases h : role? = some "goat"
  · simp [h]
  · by_cases h2 : role? = some "prompter" <;> simp [h, h2]

theorem removeInfo_has_goat (role? : Option String) (i : LobbyInfo) :
    (removeInfo role? i).has_goat = (if role? = some "goat" then false else i.has_goat) := by
  unfold removeInfo
  by_cases h : role? = some "goat"
  · simp [h]
  · by_cases h2 : role? = some "prompter" <;> simp [h, h2]

theorem removeInfo_has_prompter (role? : Option String) (i : LobbyInfo) :
    (removeInfo role? i).has_prompter =
      (if role? = some "prompter" then false else i.has_prompter) := by
  unfold removeInfo
  by_cases h : role? = some "goat"
  · simp [h]
  · by_cases h2 : role? = some "prompter" <;> simp [h, h2]

/-- A broadcast immediately after the admission bookkeeping only re-stamps the
same activity value, so it leaves the state fixed. -/
theorem aset_aset {α β : Type} [DecidableEq α] (k : α) (v w : β) (l : List (α × β)) :
    aset k v (aset k w l) = aset k v l := by
  induction l with
  | nil => simp [aset]
  | cons p l ih =>
    obtain ⟨k', v'⟩ := p
    by_cases h : k' = k
    · simp [aset, h]
    · simp [aset, h, ih]

theorem broadcastState_admitStateCore (st1 : ManagerState) (conn : Nat)
    (lobby_code role : String) (now : Int) (cs : List Nat) (i : LobbyInfo) :
    broadcastState (admitStateCore st1 conn lobby_code role now cs i) lobby_code now
      = admitStateCore st1 conn lobby_code role now cs i := by
  unfold broadcastState admitStateCore
  simp [alookup_aset_self, aset_aset]

/-! ### Invariant preservation -/

/-- Core preservation lemma: the admission bookkeeping preserves the
invariant. The activity-domain hypothesis is assumed only away from the
admitted lobby, because a freshly created lobby has no activity entry until
the admission stamps one. -/
theorem inv_admit {st1 : ManagerState} {conn : Nat} {L role : String} {now : Int}
    {cs : List Nat} {i : LobbyInfo}
    (nodupAC : KeysNodup st1.active_connections)
    (nodupLC : KeysNodup st1.lobby_codes)
    (nodupPR : KeysNodup st1.player_roles)
    (nodupLA : KeysNodup st1.last_activity)
    (nodupLI : KeysNodup st1.lobby_info)
    (domInfo : ∀ M, (alookup M st1.active_connections).isSome
      ↔ (alookup M st1.lobby_info).isSome)
    (domAct : ∀ M, M ≠ L →
      ((alookup M st1.active_connections).isSome ↔ (alookup M st1.last_activity).isSome))
    (bound : ∀ M cs' c, alookup M st1.active_connections = some cs' → c ∈ cs' →
      alookup c st1.lobby_codes = some M)
    (nodupConns : ∀ M cs', alookup M st1.active_connections = some cs' → cs'.Nodup)
    (counts : ∀ M cs' i', alookup M st1.active_connections = some cs' →
      alookup M st1.lobby_info = some i' →
      i'.player_count = (cs'.length : Int) ∧
      cs'.countP (isRole st1 "goat") = (if i'.has_goat then 1 else 0) ∧
      cs'.countP (isRole st1 "prompter") = (if i'.has_prompter then 1 else 0))
    (hfresh : alookup conn st1.lobby_codes = none)
    (hcs : alookup L st1.active_connections = some cs)
    (hi : alookup L st1.lobby_info = some i)
    (hg : ¬(role = "goat" ∧ i.has_goat = true))
    (hp : ¬(role = "prompter" ∧ i.has_prompter = true)) :
    Inv (admitStateCore st1 conn L role now cs i) := by
  have hNotIn : ∀ M cs', alookup M st1.active_connections = some cs' → conn ∉ cs' := by
    intro M cs' hM hmem
    have hb := bound M cs' conn hM hmem
    rw [hfresh] at hb
    exact Option.noConfusion hb
  have hAC2 : (admitStateCore st1 conn L role now cs i).active_connections
      = aset L (cs ++ [conn]) st1.active_connections := rfl
  have hLC2 : (admitStateCore st1 conn L role now cs i).lobby_codes
      = aset conn L st1.lobby_codes := rfl
  have hPR2 : (admitStateCore st1 conn L role now cs i).player_roles
      = aset conn role st1.player_roles := rfl
  have hLA2 : (admitStateCore st1 conn L role now cs i).last_activity
      = aset L now st1.last_activity := rfl
  have hLI2 : (admitStateCore st1 conn L role now cs i).lobby_info
      = aset L (admitInfo role i) st1.lobby_info := rfl
  have hisRole : ∀ r c, isRole (admitStateCore st1 conn L role now cs i) r c
      = decide (alookup c (aset conn role st1.player_roles) = some r) := fun r c => rfl
  refine ⟨?_, ?_, ?_, ?_, ?_, ?_, ?_, ?_, ?_, ?_⟩
  · rw [hAC2]; exact keysNodup_aset _ _ nodupAC
  · rw [hLC2]; exact keysNodup_aset _ _ nodupLC
  · rw [hPR2]; exact keysNodup_aset _ _ nodupPR
  · rw [hLA2]; exact keysNodup_aset _ _ nodupLA
  · rw [hLI2]; exact keysNodup_aset _ _ nodupLI
  · intro M
    rw [hAC2, hLI2]
    by_cases hML : L = M
    · subst hML
      rw [alookup_aset_self, alookup_aset_self]
      simp
    · rw [alookup_aset_ne (fun he => hML he.symm), alookup_aset_ne (fun he => hML he.symm)]
      exact domInfo M
  · intro M
    rw [hAC2, hLA2]
    by_cases hML : L = M
    · subst hML
      rw [alookup_aset_self, alookup_aset_self]
      simp
    · rw [alookup_aset_ne (fun he => hML he.symm), alookup_aset_ne (fun he => hML he.symm)]
      exact domAct M (fun he => hML he.symm)
  · intro M cs' c hM hc
    rw [hAC2] at hM
    rw [hLC2]
    by_cases hML : L = M
    · subst hML
      rw [alookup_aset_self] at hM
      injection hM with hM
      subst hM
      rcases List.mem_append.mp hc with h1 | h1
      · have hb := bound L cs c hcs h1
        have hcne : c ≠ conn := by
          intro he
          subst he
          rw [hfresh] at hb
          exact Option.noConfusion hb
        rw [alookup_aset_ne hcne]
        exact hb
      · have hceq : c = conn := by simpa using h1
        subst hceq
        rw [alookup_aset_self]
    · rw [alookup_aset_ne (fun he => hML he.symm)] at hM
      have hb := bound M cs' c hM hc
      have hcne : c ≠ conn := by
        intro he
        subst he
        rw [hfresh] at hb
        exact Option.noConfusion hb
      rw [alookup_aset_ne hcne]
      exact hb
  · intro M cs' hM
    rw [hAC2] at hM
    by_cases hML : L = M
    · subst hML
      rw [alookup_aset_self] at hM
      injection hM with hM
      subst hM
      have h1 := nodupConns L cs hcs
      have h2 := hNotIn L cs hcs
      simp [List.nodup_append, h1, h2]
    · rw [alookup_aset_ne (fun he => hML he.symm)] at hM
      exact nodupConns M cs' hM
  · intro M cs' i' hM hMI
    rw [hAC2] at hM
    rw [hLI2] at hMI
    by_cases hML : L = M
    · subst hML
      rw [alookup_aset_self] at hM hMI
      injection hM with hM
      injection hMI with hMI
      subst hM
      subst hMI
      obtain ⟨hlen, hgc, hpc⟩ := counts L cs i hcs hi
      have hcongr : ∀ r : String,
          cs.countP (isRole (admitStateCore st1 conn L role now cs i) r)
            = cs.countP (isRole st1 r) := by
        intro r
        apply countP_congr_eq
        intro c hcmem
        have hcne : c ≠ conn := by
          intro he
          exact hNotIn L cs hcs (he ▸ hcmem)
        rw [hisRole]
        simp only [isRole]
        rw [alookup_aset_ne hcne]
      have hconnRole : ∀ r,
          isRole (admitStateCore st1 conn L role now cs i) r conn = decide (role = r) := by
        intro r
        rw [hisRole, alookup_aset_self]
        simp
      refine ⟨?_, ?_, ?_⟩
      · rw [admitInfo_player_count, hlen, List.length_append]
        push_cast
        simp
      · rw [List.countP_append, hcongr "goat", hgc, admitInfo_has_goat]
        have hone : [conn].countP (isRole (admitStateCore st1 conn L role now cs i) "goat")
            = if role = "goat" then 1 else 0 := by
          rw [List.countP_singleton, hconnRole]
          by_cases hr : role = "goat" <;> simp [hr]
        rw [hone]
        by_cases hr : role = "goat"
        · have hgf : i.has_goat = false := by
            cases hgoat : i.has_goat
            · rfl
            · exact absurd ⟨hr, hgoat⟩ hg
          simp [hr, hgf]
        · simp [hr]
      · rw [List.countP_append, hcongr "prompter", hpc, admitInfo_has_prompter]
        have hone : [conn].countP (isRole (admitStateCore st1 conn L role now cs i) "prompter")
            = if role = "prompter" then 1 else 0 := by
          rw [List.countP_singleton, hconnRole]
          by_cases hr : role = "prompter" <;> simp [hr]
        rw [hone]
        by_cases hr : role = "prompter"
        · have hpf : i.has_prompter = false := by
            cases hpr : i.has_prompter
            · rfl
            · exact absurd ⟨hr, hpr⟩ hp
          simp [hr, hpf]
        · simp [hr]
    · rw [alookup_aset_ne (fun he => hML he.symm)] at hM hMI
      obtain ⟨hlen, hgc, hpc⟩ := counts M cs' i' hM hMI
      have hcongr : ∀ r : String,
          cs'.countP (isRole (admitStateCore st1 conn L role now cs i) r)
            = cs'.countP (isRole st1 r) := by
        intro r
        apply countP_congr_eq
        intro c hcmem
        have hcne : c ≠ conn := by
          intro he
          exact hNotIn M cs' hM (he ▸ hcmem)
        rw [hisRole]
        simp only [isRole]
        rw [alookup_aset_ne hcne]
      exact ⟨hlen, by rw [hcongr "goat"]; exact hgc, by rw [hcongr "prompter"]; exact hpc⟩

/-- Erasing the two mappings of a connection that sits in no member list
preserves the invariant (the tail end of disconnect). -/
theorem inv_erase_mappings {st : ManagerState} {conn : Nat} (hInv : Inv st)
    (hnotin : ∀ M cs, alookup M st.active_connections = some cs → conn ∉ cs) :
    Inv { st with
      lobby_codes := aerase conn st.lobby_codes
      player_roles := aerase conn st.player_roles } := by
  obtain ⟨nAC, nLC, nPR, nLA, nLI, dI, dA, bd, nC, cts⟩ := hInv
  refine ⟨nAC, keysNodup_aerase _ nLC, keysNodup_aerase _ nPR, nLA, nLI, dI, dA, ?_, nC, ?_⟩
  · intro M cs c hM hc
    have hcne : c ≠ conn := by
      intro he
      exact hnotin M cs hM (he ▸ hc)
    show alookup c (aerase conn st.lobby_codes) = some M
    rw [alookup_aerase_ne hcne]
    exact bd M cs c hM hc
  · intro M cs i hM hMI
    obtain ⟨h1, h2, h3⟩ := cts M cs i hM hMI
    have hcongr : ∀ r : String,
        cs.countP (isRole { st with
          lobby_codes := aerase conn st.lobby_codes
          player_roles := aerase conn st.player_roles } r)
          = cs.countP (isRole st r) := by
      intro r
      apply countP_congr_eq
      intro c hcmem
      have hcne : c ≠ conn := by
        intro he
        exact hnotin M cs hM (he ▸ hcmem)
      simp only [isRole]
      rw [alookup_aerase_ne hcne]
    exact ⟨h1, by rw [hcongr "goat"]; exact h2, by rw [hcongr "prompter"]; exact h3⟩

/-- Deleting a lobby from the three lobby-keyed dictionaries at once preserves
the invariant (the emptied-lobby branch of disconnect, and the idle sweep). -/
theorem inv_eraseLobby {st : ManagerState} (L : String) (hInv : Inv st) :
    Inv { st with
      active_connections := aerase L st.active_connections
      last_activity := aerase L st.last_activity
      lobby_info := aerase L st.lobby_info } := by
  obtain ⟨nAC, nLC, nPR, nLA, nLI, dI, dA, bd, nC, cts⟩ := hInv
  refine ⟨keysNodup_aerase _ nAC, nLC, nPR, keysNodup_aerase _ nLA,
    keysNodup_aerase _ nLI, ?_, ?_, ?_, ?_, ?_⟩
  · intro M
    show (alookup M (aerase L st.active_connections)).isSome
      ↔ (alookup M (aerase L st.lobby_info)).isSome
    by_cases hML : L = M
    · subst hML
      rw [alookup_aerase_self nAC, alookup_aerase_self nLI]
      exact Iff.rfl
    · rw [alookup_aerase_ne (fun he => hML he.symm), alookup_aerase_ne (fun he => hML he.symm)]
      exact dI M
  · intro M
    show (alookup M (aerase L st.active_connections)).isSome
      ↔ (alookup M (aerase L st.last_activity)).isSome
    by_cases hML : L = M
    · subst hML
      rw [alookup_aerase_self nAC, alookup_aerase_self nLA]
      exact Iff.rfl
    · rw [alookup_aerase_ne (fun he => hML he.symm), alookup_aerase_ne (fun he => hML he.symm)]
      exact dA M
  · intro M cs c hM hc
    by_cases hML : L = M
    · subst hML
      rw [show ({ st with
          active_connections := aerase L st.active_connections
          last_activity := aerase L st.last_activity
          lobby_info := aerase L st.lobby_info } : ManagerState).active_connections
          = aerase L st.active_connections from rfl, alookup_aerase_self nAC] at hM
      exact Option.noConfusion hM
    · rw [show ({ st with
          active_connections := aerase L st.active_connections
          last_activity := aerase L st.last_activity
          lobby_info := aerase L st.lobby_info } : ManagerState).active_connections
          = aerase L st.active_connections from rfl, alookup_aerase_ne (fun he => hML he.symm)] at hM
      exact bd M cs c hM hc
  · intro M cs hM
    by_cases hML : L = M
    · subst hML
      rw [show ({ st with
          active_connections := aerase L st.active_connections
          last_activity := aerase L st.last_activity
          lobby_info := aerase L st.lobby_info } : ManagerState).active_connections
          = aerase L st.active_connections from rfl, alookup_aerase_self nAC] at hM
      exact Option.noConfusion hM
    · rw [show ({ st with
          active_connections := aerase L st.active_connections
          last_activity := aerase L st.last_activity
          lobby_info := aerase L st.lobby_info } : ManagerState).active_connections
          = aerase L st.active_connections from rfl, alookup_aerase_ne (fun he => hML he.symm)] at hM
      exact nC M cs hM
  · intro M cs i hM hMI
    by_cases hML : L = M
    · subst hML
      rw [show ({ st with
          active_connections := aerase L st.active_connections
          last_activity := aerase L st.last_activity
          lobby_info := aerase L st.lobby_info } : ManagerState).active_connections
          = aerase L st.active_connections from rfl, alookup_aerase_self nAC] at hM
      exact Option.noConfusion hM
    · rw [show ({ st with
          active_connections := aerase L st.active_connections
          last_activity := aerase L st.last_activity
          lobby_info := aerase L st.lobby_info } : ManagerState).active_connections
          = aerase L st.active_connections from rfl, alookup_aerase_ne (fun he => hML he.symm)] at hM
      rw [show ({ st with
          active_connections := aerase L st.active_connections
          last_activity := aerase L st.last_activity
          lobby_info := aerase L st.lobby_info } : ManagerState).lobby_info
          = aerase L st.lobby_info from rfl, alookup_aerase_ne (fun he => hML he.symm)] at hMI
      exact cts M cs i hM hMI

/-- Characterization of a successful admission: both lookups succeeded, no
role conflict fired, and the final state is the admission bookkeeping (the two
notification broadcasts only re-stamp the same activity value). -/
theorem connectAfter_admitted {st1 : ManagerState} {conn : Nat} {L role : String}
    {now : Int} {st2 : ManagerState} {evs : List OutEvent}
    (h : connectAfter st1 conn L role now = ConnectRes.admitted st2 evs) :
    ∃ i cs, alookup L st1.lobby_info = some i ∧ alookup L st1.active_connections = some cs ∧
      ¬(role = "goat" ∧ i.has_goat = true) ∧ ¬(role = "prompter" ∧ i.has_prompter = true) ∧
      st2 = admitStateCore st1 conn L role now cs i := by
  unfold connectAfter at h
  split at h
  · rename_i i cs h1 h2
    split at h
    · exact absurd h (by simp)
    · rename_i hg
      split at h
      · exact absurd h (by simp)
      · rename_i hp
        simp only [broadcastState_admitStateCore] at h
        injection h with ha hb
        exact ⟨i, cs, h1, h2, hg, hp, ha.symm⟩
  · exact absurd h (by simp)

/-- Characterization of a rejection: the state is returned untouched and some
occupied exclusive role matched the requested one. -/
theorem connectAfter_rejected {st1 : ManagerState} {conn : Nat} {L role : String}
    {now : Int} {r : String} {st2 : ManagerState}
    (h : connectAfter st1 conn L role now = ConnectRes.rejected r st2) :
    st2 = st1 ∧ ∃ i, alookup L st1.lobby_info = some i ∧
      ((role = "goat" ∧ i.has_goat = true) ∨ (role = "prompter" ∧ i.has_prompter = true)) := by
  unfold connectAfter at h
  split at h
  · rename_i i cs h1 h2
    split at h
    · rename_i hg
      injection h with ha hb
      exact ⟨hb.symm, i, h1, Or.inl hg⟩
    · rename_i hg
      split at h
      · rename_i hp
        injection h with ha hb
        exact ⟨hb.symm, i, h1, Or.inr hp⟩
      · exact absurd h (by simp)
  · exact absurd h (by simp)

/-- A rejected connect leaves the registry exactly as it was: a conflict can
only fire on a lobby that already existed, so the creation step did not run. -/
theorem connect_rejected_eq {st : ManagerState} {conn : Nat} {L role : String}
    {now : Int} {r : String} {st2 : ManagerState}
    (h : connect st conn L role now = ConnectRes.rejected r st2) : st2 = st := by
  unfold connect at h
  cases h0 : alookup L st.active_connections with
  | some cs0 =>
    rw [h0] at h
    exact (connectAfter_rejected h).1
  | none =>
    rw [h0] at h
    obtain ⟨hst, i, h1, hcond⟩ := connectAfter_rejected h
    have h2 : alookup L (createState st L now).lobby_info
        = some (⟨now, 0, false, false⟩ : LobbyInfo) := alookup_aset_self _ _ _
    rw [h1] at h2
    injection h2 with h2
    rcases hcond with ⟨_, hflag⟩ | ⟨_, hflag⟩ <;> rw [h2] at hflag <;> simp at hflag

/-- A fresh admission preserves the registry invariant. -/
theorem inv_connect {st : ManagerState} {conn : Nat} {L role : String} {now : Int}
    {st2 : ManagerState} {evs : List OutEvent}
    (hInv : Inv st) (hfresh : alookup conn st.lobby_codes = none)
    (h : connect st conn L role now = ConnectRes.admitted st2 evs) : Inv st2 := by
  unfold connect at h
  cases h0 : alookup L st.active_connections with
  | some cs0 =>
    rw [h0] at h
    obtain ⟨i, cs, h1, h2, hg, hp, hst⟩ := connectAfter_admitted h
    subst hst
    exact inv_admit hInv.nodupAC hInv.nodupLC hInv.nodupPR hInv.nodupLA hInv.nodupLI
      hInv.domInfo (fun M _ => hInv.domAct M) hInv.bound hInv.nodupConns hInv.counts
      hfresh h2 h1 hg hp
  | none =>
    rw [h0] at h
    obtain ⟨i, cs, h1, h2, hg, hp, hst⟩ := connectAfter_admitted h
    subst hst
    have hAC1 : (createState st L now).active_connections
        = aset L [] st.active_connections := rfl
    have hLI1 : (createState st L now).lobby_info
        = aset L ⟨now, 0, false, false⟩ st.lobby_info := rfl
    refine inv_admit ?_ ?_ ?_ ?_ ?_ ?_ ?_ ?_ ?_ ?_ ?_ h2 h1 hg hp
    · rw [hAC1]
      exact keysNodup_aset _ _ hInv.nodupAC
    · exact hInv.nodupLC
    · exact hInv.nodupPR
    · exact hInv.nodupLA
    · rw [hLI1]
      exact keysNodup_aset _ _ hInv.nodupLI
    · intro M
      rw [hAC1, hLI1]
      by_cases hML : L = M
      · subst hML
        rw [alookup_aset_self, alookup_aset_self]
        simp
      · rw [alookup_aset_ne (fun he => hML he.symm), alookup_aset_ne (fun he => hML he.symm)]
        exact hInv.domInfo M
    · intro M hMne
      rw [hAC1]
      rw [alookup_aset_ne hMne]
      exact hInv.domAct M
    · intro M cs' c hM hc
      rw [hAC1] at hM
      by_cases hML : L = M
      · subst hML
        rw [alookup_aset_self] at hM
        injection hM with hM
        subst hM
        simp at hc
      · rw [alookup_aset_ne (fun he => hML he.symm)] at hM
        exact hInv.bound M cs' c hM hc
    · intro M cs' hM
      rw [hAC1] at hM
      by_cases hML : L = M
      · subst hML
        rw [alookup_aset_self] at hM
        injection hM with hM
        subst hM
        simp
      · rw [alookup_aset_ne (fun he => hML he.symm)] at hM
        exact hInv.nodupConns M cs' hM
    · intro M cs' i' hM hMI
      rw [hAC1] at hM
      rw [hLI1] at hMI
      by_cases hML : L = M
      · subst hML
        rw [alookup_aset_self] at hM hMI
        injection hM with hM
        injection hMI with hMI
        subst hM
        subst hMI
        simp
      · rw [alookup_aset_ne (fun he => hML he.symm)] at hM hMI
        exact hInv.counts M cs' i' hM hMI
    · exact hfresh

/-- A rejected admission preserves the registry invariant. -/
theorem inv_connect_rejected {st : ManagerState} {conn : Nat} {L role : String}
    {now : Int} {r : String} {st2 : ManagerState}
    (hInv : Inv st) (h : connect st conn L role now = ConnectRes.rejected r st2) :
    Inv st2 := by
  rw [connect_rejected_eq h]
  exact hInv

/-- The removal bookkeeping for a lobby that keeps members preserves the
invariant (the departure notification has already re-stamped the activity). -/
theorem inv_removeState {st : ManagerState} {conn : Nat} {L : String} {now : Int}
    {cs : List Nat} {i : LobbyInfo}
    (hInv : Inv st)
    (hcs : alookup L st.active_connections = some cs)
    (hi : alookup L st.lobby_info = some i)
    (hmem : conn ∈ cs) :
    Inv (broadcastState { st with
      active_connections := aset L (cs.erase conn) st.active_connections
      lobby_info := aset L (removeInfo (alookup conn st.player_roles) i) st.lobby_info } L now) := by
  set i3 := removeInfo (alookup conn st.player_roles) i with hi3
  set stA : ManagerState :=
    { st with
      active_connections := aset L (cs.erase conn) st.active_connections
      lobby_info := aset L i3 st.lobby_info } with hstA
  have hbs : broadcastState stA L now
      = { st with
          active_connections := aset L (cs.erase conn) st.active_connections
          lobby_info := aset L i3 st.lobby_info
          last_activity := aset L now st.last_activity } := by
    unfold broadcastState
    rw [show alookup L stA.active_connections = some (cs.erase conn) from alookup_aset_self _ _ _]
  rw [hbs]
  have hcsnd : cs.Nodup := hInv.nodupConns L cs hcs
  obtain ⟨hlen, hgc, hpc⟩ := hInv.counts L cs i hcs hi
  have hperm : cs.Perm (conn :: cs.erase conn) := List.perm_cons_erase hmem
  refine ⟨?_, hInv.nodupLC, hInv.nodupPR, ?_, ?_, ?_, ?_, ?_, ?_, ?_⟩
  · exact keysNodup_aset _ _ hInv.nodupAC
  · exact keysNodup_aset _ _ hInv.nodupLA
  · exact keysNodup_aset _ _ hInv.nodupLI
  · intro M
    by_cases hML : L = M
    · subst hML
      show (alookup L (aset L (cs.erase conn) st.active_connections)).isSome
        ↔ (alookup L (aset L i3 st.lobby_info)).isSome
      rw [alookup_aset_self, alookup_aset_self]
      simp
    · show (alookup M (aset L (cs.erase conn) st.active_connections)).isSome
        ↔ (alookup M (aset L i3 st.lobby_info)).isSome
      rw [alookup_aset_ne (fun he => hML he.symm), alookup_aset_ne (fun he => hML he.symm)]
      exact hInv.domInfo M
  · intro M
    by_cases hML : L = M
    · subst hML
      show (alookup L (aset L (cs.erase conn) st.active_connections)).isSome
        ↔ (alookup L (aset L now st.last_activity)).isSome
      rw [alookup_aset_self, alookup_aset_self]
      simp
    · show (alookup M (aset L (cs.erase conn) st.active_connections)).isSome
        ↔ (alookup M (aset L now st.last_activity)).isSome
      rw [alookup_aset_ne (fun he => hML he.symm), alookup_aset_ne (fun he => hML he.symm)]
      exact hInv.domAct M
  · intro M cs' c hM hc
    by_cases hML : L = M
    · subst hML
      rw [show alookup L (aset L (cs.erase conn) st.active_connections)
          = some (cs.erase conn) from alookup_aset_self _ _ _] at hM
      injection hM with hM
      subst hM
      exact hInv.bound L cs c hcs (List.mem_of_mem_erase hc)
    · rw [show alookup M (aset L (cs.erase conn) st.active_connections)
          = alookup M st.active_connections from
          alookup_aset_ne (fun he => hML he.symm) _ _] at hM
      exact hInv.bound M cs' c hM hc
  · intro M cs' hM
    by_cases hML : L = M
    · subst hML
      rw [show alookup L (aset L (cs.erase conn) st.active_connections)
          = some (cs.erase conn) from alookup_aset_self _ _ _] at hM
      injection hM with hM
      subst hM
      exact hcsnd.erase conn
    · rw [show alookup M (aset L (cs.erase conn) st.active_connections)
          = alookup M st.active_connections from
          alookup_aset_ne (fun he => hML he.symm) _ _] at hM
      exact hInv.nodupConns M cs' hM
  · intro M cs' i' hM hMI
    have hRole : ∀ r : String,
        isRole (⟨aset L (cs.erase conn) st.active_connections, st.lobby_codes,
          st.player_roles, aset L now st.last_activity, aset L i3 st.lobby_info⟩ : ManagerState) r
          = isRole st r := fun r => rfl
    by_cases hML : L = M
    · subst hML
      rw [show alookup L (aset L (cs.erase conn) st.active_connections)
          = some (cs.erase conn) from alookup_aset_self _ _ _] at hM
      rw [show alookup L (aset L i3 st.lobby_info) = some i3 from alookup_aset_self _ _ _] at hMI
      injection hM with hM
      injection hMI with hMI
      subst hM
      subst hMI
      have hcount : ∀ r : String, cs.countP (isRole st r)
          = (cs.erase conn).countP (isRole st r) + (if isRole st r conn then 1 else 0) := by
        intro r
        rw [hperm.countP_eq (isRole st r), List.countP_cons]
      have herase_len : ((cs.erase conn).length : Int) = (cs.length : Int) - 1 := by
        rw [List.length_erase_of_mem hmem]
        have hpos : 0 < cs.length := List.length_pos_of_mem hmem
        omega
      refine ⟨?_, ?_, ?_⟩
      · rw [show i3 = removeInfo (alookup conn st.player_roles) i from rfl,
          removeInfo_player_count, hlen, herase_len]
      · rw [hRole "goat"]
        rw [show i3 = removeInfo (alookup conn st.player_roles) i from rfl,
          removeInfo_has_goat]
        by_cases hr : alookup conn st.player_roles = some "goat"
        · rw [if_pos hr]
          have hconn : isRole st "goat" conn = true := by
            simp [isRole, hr]
          rw [hcount "goat", hconn] at hgc
          cases hflag : i.has_goat
          · rw [hflag] at hgc
            simp at hgc
          · rw [hflag] at hgc
            simp at hgc ⊢
            exact hgc
        · rw [if_neg hr]
          have hconn : isRole st "goat" conn = false := by
            simp [isRole, hr]
          rw [hcount "goat", hconn] at hgc
          simp at hgc
          cases hflag : i.has_goat <;> rw [hflag] at hgc <;> simp [hgc]
      · rw [hRole "prompter"]
        rw [show i3 = removeInfo (alookup conn st.player_roles) i from rfl,
          removeInfo_has_prompter]
        by_cases hr : alookup conn st.player_roles = some "prompter"
        · rw [if_pos hr]
          have hconn : isRole st "prompter" conn = true := by
            simp [isRole, hr]
          rw [hcount "prompter", hconn] at hpc
          cases hflag : i.has_prompter
          · rw [hflag] at hpc
            simp at hpc
          · rw [hflag] at hpc
            simp at hpc ⊢
            exact hpc
        · rw [if_neg hr]
          have hconn : isRole st "prompter" conn = false := by
            simp [isRole, hr]
          rw [hcount "prompter", hconn] at hpc
          simp at hpc
          cases hflag : i.has_prompter <;> rw [hflag] at hpc <;> simp [hpc]
    · rw [show alookup M (aset L (cs.erase conn) st.active_connections)
          = alookup M st.active_connections from
          alookup_aset_ne (fun he => hML he.symm) _ _] at hM
      rw [show alookup M (aset L i3 st.lobby_info) = alookup M st.lobby_info from
          alookup_aset_ne (fun he => hML he.symm) _ _] at hMI
      obtain ⟨ha, hb, hc2⟩ := hInv.counts M cs' i' hM hMI
      exact ⟨ha, by rw [hRole "goat"]; exact hb, by rw [hRole "prompter"]; exact hc2⟩

/-- The inner removal block preserves the invariant, and afterwards the leaving
connection sits in no member list. -/
theorem disconnectInner_inv {st : ManagerState} {conn : Nat} {L : String} {now : Int}
    {stI : ManagerState} {evs : List OutEvent}
    (hInv : Inv st) (hlc : alookup conn st.lobby_codes = some L)
    (h : disconnectInner st conn L now = DisconnectRes.ok stI evs) :
    Inv stI ∧ ∀ M cs', alookup M stI.active_connections = some cs' → conn ∉ cs' := by
  unfold disconnectInner at h
  split at h
  · rename_i cs hac
    split at h
    · rename_i hmem
      split at h
      · exact absurd h (by simp)
      · rename_i i hi
        simp only [] at h
        split at h
        · rename_i hempty
          injection h with h1 h2
          subst h1
          refine ⟨inv_eraseLobby L hInv, ?_⟩
          intro M cs' hM hmem2
          rw [show ({ st with
              active_connections := aerase L st.active_connections
              last_activity := aerase L st.last_activity
              lobby_info := aerase L st.lobby_info } : ManagerState).active_connections
              = aerase L st.active_connections from rfl] at hM
          by_cases hML : L = M
          · subst hML
            rw [alookup_aerase_self hInv.nodupAC] at hM
            exact Option.noConfusion hM
          · rw [alookup_aerase_ne (fun he => hML he.symm)] at hM
            have hb := hInv.bound M cs' conn hM hmem2
            rw [hlc] at hb
            injection hb with hb
            exact hML hb
        · rename_i hempty
          injection h with h1 h2
          subst h1
          refine ⟨inv_removeState hInv hac hi hmem, ?_⟩
          intro M cs' hM hmem2
          have hACI : (broadcastState { st with
              active_connections := aset L (cs.erase conn) st.active_connections
              lobby_info := aset L (removeInfo (alookup conn st.player_roles) i)
                st.lobby_info } L now).active_connections
              = aset L (cs.erase conn) st.active_connections := by
            unfold broadcastState
            rw [show alookup L ({ st with
              active_connections := aset L (cs.erase conn) st.active_connections
              lobby_info := aset L (removeInfo (alookup conn st.player_roles) i)
                st.lobby_info } : ManagerState).active_connections
              = some (cs.erase conn) from alookup_aset_self _ _ _]
          rw [hACI] at hM
          by_cases hML : L = M
          · subst hML
            rw [alookup_aset_self] at hM
            injection hM with hM
            subst hM
            exact (hInv.nodupConns L cs hac).not_mem_erase hmem2
          · rw [alookup_aset_ne (fun he => hML he.symm)] at hM
            have hb := hInv.bound M cs' conn hM hmem2
            rw [hlc] at hb
            injection hb with hb
            exact hML hb
    · rename_i hmem
      injection h with h1 h2
      subst h1
      refine ⟨hInv, ?_⟩
      intro M cs' hM hmem2
      have hb := hInv.bound M cs' conn hM hmem2
      rw [hlc] at hb
      injection hb with hb
      subst hb
      rw [hac] at hM
      injection hM with hM
      subst hM
      exact hmem hmem2
  · rename_i hac
    injection h with h1 h2
    subst h1
    refine ⟨hInv, ?_⟩
    intro M cs' hM hmem2
    have hb := hInv.bound M cs' conn hM hmem2
    rw [hlc] at hb
    injection hb with hb
    subst hb
    rw [hac] at hM
    exact Option.noConfusion hM

/-- A disconnect preserves the registry invariant. -/
theorem inv_disconnect {st : ManagerState} {conn : Nat} {now : Int}
    {st2 : ManagerState} {evs : List OutEvent}
    (hInv : Inv st) (h : disconnect st conn now = DisconnectRes.ok st2 evs) : Inv st2 := by
  unfold disconnect at h
  split at h
  · injection h with h1 h2
    subst h1
    exact hInv
  · rename_i L hlc
    split at h
    · injection h with h1 h2
      subst h1
      exact hInv
    · split at h
      · exact absurd h (by simp)
      · rename_i stI evs' hInner
        injection h with h1 h2
        subst h1
        obtain ⟨hInvI, hnotin⟩ := disconnectInner_inv hInv hlc hInner
        exact inv_erase_mappings hInvI hnotin

/-- One pass of the idle sweep over a lobby equals deleting the lobby from the
three lobby-keyed dictionaries. -/
theorem cleanupOne_eq {st : ManagerState} (now : Int) (L : String) (hInv : Inv st) :
    cleanupOne now st L = { st with
      active_connections := aerase L st.active_connections
      last_activity := aerase L st.last_activity
      lobby_info := aerase L st.lobby_info } := by
  unfold cleanupOne broadcastState
  cases h0 : alookup L st.active_connections with
  | some cs =>
    simp only [h0]
    rw [aerase_aset _ hInv.nodupLA]
  | none =>
    simp only [h0]
    have hLI : alookup L st.lobby_info = none := by
      cases h2 : alookup L st.lobby_info with
      | none => rfl
      | some x =>
        have hs := (hInv.domInfo L).mpr (by rw [h2]; rfl)
        rw [h0] at hs
        simp at hs
    rw [alookup_none_aerase h0, alookup_none_aerase hLI]

theorem inv_cleanupOne {st : ManagerState} (now : Int) (L : String) (hInv : Inv st) :
    Inv (cleanupOne now st L) := by
  rw [cleanupOne_eq now L hInv]
  exact inv_eraseLobby L hInv

theorem inv_cleanup_fold (now : Int) :
    ∀ (ms : List String) (st : ManagerState), Inv st → Inv (ms.foldl (cleanupOne now) st)
  | [], _, hInv => hInv
  | m :: ms, st, hInv =>
    inv_cleanup_fold now ms (cleanupOne now st m) (inv_cleanupOne now m hInv)

/-- The idle sweep preserves the registry invariant. -/
theorem inv_cleanup {st : ManagerState} {now maxIdle : Int} (hInv : Inv st) :
    Inv (cleanup_inactive_lobbies st now maxIdle) := by
  unfold cleanup_inactive_lobbies
  exact inv_cleanup_fold now _ st hInv

/-- The freshly initialized manager satisfies the invariant. -/
theorem inv_init : Inv initState := by
  refine ⟨?_, ?_, ?_, ?_, ?_, ?_, ?_, ?_, ?_, ?_⟩ <;>
    simp [initState, KeysNodup, alookup]

/-- Every reachable registry state satisfies the consistency invariant. -/
theorem reach_inv {st : ManagerState} (h : Reach st) : Inv st := by
  induction h with
  | init => exact inv_init
  | connectAdmitted st conn L role now st2 evs hR hfresh hconn ih =>
    exact inv_connect ih hfresh hconn
  | connectRejected st conn L role now r st2 hR hfresh hconn ih =>
    exact inv_connect_rejected ih hconn
  | disconnectStep st conn now st2 evs hR hd ih =>
    exact inv_disconnect ih hd
  | cleanupStep st now maxIdle hR ih =>
    exact inv_cleanup ih

/-! ### Concrete states used to instantiate the theorems -/

/-- The registry after one goat joined lobby AB from a fresh start. -/
def stW : ManagerState :=
  ⟨[("AB", [1])], [(1, "AB")], [(1, "goat")], [("AB", 0)],
   [("AB", ⟨0, 1, true, false⟩)]⟩

def stW_events : List OutEvent :=
  [OutEvent.bcast "AB" (OutMsg.systemMessage ("Player joined as " ++ "goat")),
   OutEvent.bcast "AB" (OutMsg.playerJoined "goat")]

theorem stW_reach : Reach stW :=
  Reach.connectAdmitted initState 1 "AB" "goat" 0 stW stW_events Reach.init (by decide)
    (by decide)

/-- A registry whose lobby AB holds both a goat and a prompter. -/
def stB : ManagerState :=
  ⟨[("AB", [1, 2])], [(1, "AB"), (2, "AB")], [(1, "goat"), (2, "prompter")], [("AB", 0)],
   [("AB", ⟨0, 2, true, true⟩)]⟩

/-- A registry occupying the lobby code AAAAAA. -/
def stC : ManagerState :=
  ⟨[("AAAAAA", [1])], [(1, "AAAAAA")], [(1, "goat")], [("AAAAAA", 0)],
   [("AAAAAA", ⟨0, 1, true, false⟩)]⟩

/-! ### The claims -/

/-- C1: in every reachable registry state, every lobby has at most one member
whose role is goat and at most one whose role is prompter. -/
theorem role_exclusive_in_reachable {st : ManagerState} (hR : Reach st)
    {L : String} {cs : List Nat} (hcs : alookup L st.active_connections = some cs) :
    cs.countP (isRole st "goat") ≤ 1 ∧ cs.countP (isRole st "prompter") ≤ 1 := by
  have hInv := reach_inv hR
  have hsome := (hInv.domInfo L).mp (by rw [hcs]; rfl)
  cases hi : alookup L st.lobby_info with
  | none =>
    rw [hi] at hsome
    simp at hsome
  | some i =>
    obtain ⟨_, hg, hp⟩ := hInv.counts L cs i hcs hi
    constructor
    · rw [hg]
      split <;> omega
    · rw [hp]
      split <;> omega

theorem role_exclusive_witness :
    List.countP (isRole stW "goat") [1] ≤ 1 ∧ List.countP (isRole stW "prompter") [1] ≤ 1 :=
  @role_exclusive_in_reachable stW stW_reach "AB" [1] (by decide)

/-- C10: in every reachable registry state, every lobby listed in the
connection dictionary has a metadata entry whose player count equals the
number of bound connections and whose exclusive-role flags are raised exactly
when some bound connection holds the role. -/
theorem lobby_metadata_consistent {st : ManagerState} (hR : Reach st)
    {L : String} {cs : List Nat} (hcs : alookup L st.active_connections = some cs) :
    ∃ i, alookup L st.lobby_info = some i ∧
      i.player_count = (cs.length : Int) ∧
      (i.has_goat = true ↔ ∃ c ∈ cs, alookup c st.player_roles = some "goat") ∧
      (i.has_prompter = true ↔ ∃ c ∈ cs, alookup c st.player_roles = some "prompter") := by
  have hInv := reach_inv hR
  have hsome := (hInv.domInfo L).mp (by rw [hcs]; rfl)
  cases hi : alookup L st.lobby_info with
  | none =>
    rw [hi] at hsome
    simp at hsome
  | some i =>
    obtain ⟨hlen, hg, hp⟩ := hInv.counts L cs i hcs hi
    refine ⟨i, rfl, hlen, ?_, ?_⟩
    · constructor
      · intro hb
        rw [hb] at hg
        simp only [if_true, eq_self_iff_true] at hg
        have hpos : 0 < cs.countP (isRole st "goat") := by omega
        obtain ⟨c, hcmem, hcp⟩ := List.countP_pos_iff.mp hpos
        refine ⟨c, hcmem, ?_⟩
        simpa [isRole] using hcp
      · rintro ⟨c, hcmem, hcr⟩
        by_contra hb
        have hfalse : i.has_goat = false := by
          cases hflag : i.has_goat
          · rfl
          · exact absurd hflag hb
        rw [hfalse] at hg
        simp only [Bool.false_eq_true, if_false] at hg
        have := List.countP_eq_zero.mp hg c hcmem
        exact this (by simpa [isRole] using hcr)
    · constructor
      · intro hb
        rw [hb] at hp
        simp only [if_true, eq_self_iff_true] at hp
        have hpos : 0 < cs.countP (isRole st "prompter") := by omega
        obtain ⟨c, hcmem, hcp⟩ := List.countP_pos_iff.mp hpos
        refine ⟨c, hcmem, ?_⟩
        simpa [isRole] using hcp
      · rintro ⟨c, hcmem, hcr⟩
        by_contra hb
        have hfalse : i.has_prompter = false := by
          cases hflag : i.has_prompter
          · rfl
          · exact absurd hflag hb
        rw [hfalse] at hp
        simp only [Bool.false_eq_true, if_false] at hp
        have := List.countP_eq_zero.mp hp c hcmem
        exact this (by simpa [isRole] using hcr)

theorem lobby_metadata_witness :
    ∃ i, alookup "AB" stW.lobby_info = some i ∧
      i.player_count = (([1] : List Nat).length : Int) ∧
      (i.has_goat = true ↔ ∃ c ∈ ([1] : List Nat), alookup c stW.player_roles = some "goat") ∧
      (i.has_prompter = true ↔
        ∃ c ∈ ([1] : List Nat), alookup c stW.player_roles = some "prompter") :=
  @lobby_metadata_consistent stW stW_reach "AB" [1] (by decide)

/-- C2: a connect into a lobby whose requested exclusive role is occupied is
rejected with the close reason of the source, and the returned registry state
(all five dictionaries) is exactly the state before the attempt. -/
theorem connect_role_conflict_rejected {st : ManagerState} {conn : Nat} {L : String}
    {now : Int} {cs : List Nat} {i : LobbyInfo}
    (hcs : alookup L st.active_connections = some cs)
    (hi : alookup L st.lobby_info = some i) :
    (i.has_goat = true →
      connect st conn L "goat" now
        = ConnectRes.rejected "Goat role already taken in this lobby" st) ∧
    (i.has_prompter = true →
      connect st conn L "prompter" now
        = ConnectRes.rejected "Prompter role already taken in this lobby" st) := by
  constructor
  · intro hb
    unfold connect connectAfter
    simp only [hcs, hi]
    simp [hb]
  · intro hb
    unfold connect connectAfter
    simp only [hcs, hi]
    simp [hb]

theorem connect_role_conflict_witness :
    connect stB 3 "AB" "goat" 5
      = ConnectRes.rejected "Goat role already taken in this lobby" stB ∧
    connect stB 3 "AB" "prompter" 5
      = ConnectRes.rejected "Prompter role already taken in this lobby" stB := by
  have h := @connect_role_conflict_rejected stB 3 "AB" 5 [1, 2] ⟨0, 2, true, true⟩
    (by decide) (by decide)
  exact ⟨h.1 rfl, h.2 rfl⟩

/-- Unrolling of the broadcast loop: every bound connection is attempted, in
order, and exactly the non-failing sends are delivered; a raising send is
caught and never stops the loop. -/
theorem sendLoop_spec (fails : Nat → Bool) (m : OutMsg) :
    ∀ conns : List Nat, (sendLoop fails m conns).1 = conns ∧
      (sendLoop fails m conns).2
        = (conns.filter (fun c => !fails c)).map (fun c => (c, m)) := by
  intro conns
  induction conns with
  | nil => exact ⟨rfl, rfl⟩
  | cons c rest ih =>
    refine ⟨?_, ?_⟩
    · show c :: (sendLoop fails m rest).1 = c :: rest
      rw [ih.1]
    · show (if fails c then (sendLoop fails m rest).2
          else (c, m) :: (sendLoop fails m rest).2)
        = ((c :: rest).filter (fun c => !fails c)).map (fun c => (c, m))
      rw [List.filter_cons]
      cases hf : fails c
      · rw [ih.2]
        simp
      · rw [ih.2]
        simp

/-- C3: a broadcast to a lobby attempts delivery to exactly the connections
bound at call time, one send per connection and in order; a failing send does
not prevent the remaining deliveries (every non-failing member receives the
message, whatever the set of failing members); the call never raises and its
only state effect is the refreshed activity timestamp. -/
theorem broadcast_delivers_exactly_once {st : ManagerState} {L : String} {m : OutMsg}
    {now : Int} {fails : Nat → Bool} {cs : List Nat}
    (hcs : alookup L st.active_connections = some cs) :
    (broadcast st L m now fails).2.1 = cs ∧
    (broadcast st L m now fails).2.2
      = (cs.filter (fun c => !fails c)).map (fun c => (c, m)) ∧
    (∀ c ∈ cs, fails c = false → (c, m) ∈ (broadcast st L m now fails).2.2) ∧
    (broadcast st L m now fails).1
      = { st with last_activity := aset L now st.last_activity } := by
  obtain ⟨h1, h2⟩ := sendLoop_spec fails m cs
  have hb1 : (broadcast st L m now fails).2.1 = cs := by
    unfold broadcast
    simp only [hcs]
    exact h1
  have hb2 : (broadcast st L m now fails).2.2
      = (cs.filter (fun c => !fails c)).map (fun c => (c, m)) := by
    unfold broadcast
    simp only [hcs]
    exact h2
  have hb4 : (broadcast st L m now fails).1
      = { st with last_activity := aset L now st.last_activity } := by
    unfold broadcast broadcastState
    simp only [hcs]
  refine ⟨hb1, hb2, ?_, hb4⟩
  intro c hc hf
  rw [hb2]
  apply List.mem_map.mpr
  refine ⟨c, ?_, rfl⟩
  apply List.mem_filter.mpr
  refine ⟨hc, ?_⟩
  simp [hf]

theorem broadcast_witness :
    (broadcast stB "AB" OutMsg.lobbyReady 9 (fun c => c == 1)).2.1 = [1, 2] ∧
    (broadcast stB "AB" OutMsg.lobbyReady 9 (fun c => c == 1)).2.2
      = [(2, OutMsg.lobbyReady)] := by
  have h := @broadcast_delivers_exactly_once stB "AB" OutMsg.lobbyReady 9
    (fun c => c == 1) [1, 2] (by decide)
  refine ⟨h.1, ?_⟩
  rw [h.2.1]
  decide

/-- C4: when a disconnect removes the last member of a lobby, the lobby is
deleted from the connection, metadata and activity dictionaries, and the
check-lobby endpoint afterwards reports that it does not exist. -/
theorem disconnect_last_member_deletes_lobby {st : ManagerState} {conn : Nat} {L : String}
    {now : Int} {i : LobbyInfo}
    (hndAC : KeysNodup st.active_connections)
    (hndLA : KeysNodup st.last_activity)
    (hndLI : KeysNodup st.lobby_info)
    (hlc : alookup conn st.lobby_codes = some L)
    (hL : L ≠ "")
    (hcs : alookup L st.active_connections = some [conn])
    (hi : alookup L st.lobby_info = some i) :
    disconnect st conn now
      = DisconnectRes.ok
          { st with
            active_connections := aerase L st.active_connections
            lobby_codes := aerase conn st.lobby_codes
            player_roles := aerase conn st.player_roles
            last_activity := aerase L st.last_activity
            lobby_info := aerase L st.lobby_info } [] ∧
    alookup L (aerase L st.active_connections) = none ∧
    alookup L (aerase L st.lobby_info) = none ∧
    alookup L (aerase L st.last_activity) = none ∧
    check_lobby { st with
      active_connections := aerase L st.active_connections
      lobby_codes := aerase conn st.lobby_codes
      player_roles := aerase conn st.player_roles
      last_activity := aerase L st.last_activity
      lobby_info := aerase L st.lobby_info } L = ⟨false, 0, false, false⟩ := by
  have hACnone : alookup L (aerase L st.active_connections) = none :=
    alookup_aerase_self hndAC
  refine ⟨?_, hACnone, alookup_aerase_self hndLI, alookup_aerase_self hndLA, ?_⟩
  · unfold disconnect disconnectInner
    simp only [hlc, hcs, hi, if_neg hL]
    rw [if_pos (List.mem_singleton_self conn)]
    rw [show ([conn].erase conn) = ([] : List Nat) from by simp]
    rw [if_pos rfl]
  · unfold check_lobby
    rw [show ({ st with
        active_connections := aerase L st.active_connections
        lobby_codes := aerase conn st.lobby_codes
        player_roles := aerase conn st.player_roles
        last_activity := aerase L st.last_activity
        lobby_info := aerase L st.lobby_info } : ManagerState).active_connections
        = aerase L st.active_connections from rfl]
    rw [hACnone]

theorem disconnect_last_member_witness :
    disconnect stW 1 77
      = DisconnectRes.ok
          { stW with
            active_connections := aerase "AB" stW.active_connections
            lobby_codes := aerase 1 stW.lobby_codes
            player_roles := aerase 1 stW.player_roles
            last_activity := aerase "AB" stW.last_activity
            lobby_info := aerase "AB" stW.lobby_info } [] ∧
    alookup "AB" (aerase "AB" stW.active_connections) = none ∧
    alookup "AB" (aerase "AB" stW.lobby_info) = none ∧
    alookup "AB" (aerase "AB" stW.last_activity) = none ∧
    check_lobby { stW with
      active_connections := aerase "AB" stW.active_connections
      lobby_codes := aerase 1 stW.lobby_codes
      player_roles := aerase 1 stW.player_roles
      last_activity := aerase "AB" stW.last_activity
      lobby_info := aerase "AB" stW.lobby_info } "AB" = ⟨false, 0, false, false⟩ :=
  @disconnect_last_member_deletes_lobby stW 1 "AB" 77 ⟨0, 1, true, false⟩
    (by decide) (by decide) (by decide) (by decide) (by decide) (by decide) (by decide)

/-! ### The idle sweep removes exactly the stale lobbies -/

theorem cleanupOne_alookup_preserved {st : ManagerState} {now : Int} {L M : String}
    (hInv : Inv st) (hne : L ≠ M) :
    alookup L (cleanupOne now st M).active_connections
      = alookup L st.active_connections := by
  rw [cleanupOne_eq now M hInv]
  exact alookup_aerase_ne hne _

theorem fold_preserves_other (now : Int) :
    ∀ (ms : List String) (st : ManagerState), Inv st → ∀ L : String, L ∉ ms →
      alookup L ((ms.foldl (cleanupOne now) st).active_connections)
        = alookup L st.active_connections
  | [], _, _, _, _ => rfl
  | m :: ms, st, hInv, L, hnot => by
    have hne : L ≠ m := fun he => hnot (he ▸ List.mem_cons_self m ms)
    have hrest : L ∉ ms := fun hmem => hnot (List.mem_cons_of_mem m hmem)
    rw [show (m :: ms).foldl (cleanupOne now) st
        = ms.foldl (cleanupOne now) (cleanupOne now st m) from rfl]
    rw [fold_preserves_other now ms (cleanupOne now st m) (inv_cleanupOne now m hInv) L hrest]
    exact cleanupOne_alookup_preserved hInv hne

theorem fold_none_stays (now : Int) :
    ∀ (ms : List String) (st : ManagerState), Inv st → ∀ L : String,
      alookup L st.active_connections = none →
      alookup L ((ms.foldl (cleanupOne now) st).active_connections) = none
  | [], _, _, _, hnone => hnone
  | m :: ms, st, hInv, L, hnone => by
    rw [show (m :: ms).foldl (cleanupOne now) st
        = ms.foldl (cleanupOne now) (cleanupOne now st m) from rfl]
    apply fold_none_stays now ms (cleanupOne now st m) (inv_cleanupOne now m hInv) L
    by_cases hne : L = m
    · subst hne
      rw [cleanupOne_eq now L hInv]
      rw [show ({ st with
          active_connections := aerase L st.active_connections
          last_activity := aerase L st.last_activity
          lobby_info := aerase L st.lobby_info } : ManagerState).active_connections
          = aerase L st.active_connections from rfl]
      exact alookup_aerase_self hInv.nodupAC
    · rw [cleanupOne_alookup_preserved hInv hne]
      exact hnone

theorem fold_removes_mem (now : Int) :
    ∀ (ms : List String) (st : ManagerState), Inv st → ∀ L : String, L ∈ ms →
      alookup L ((ms.foldl (cleanupOne now) st).active_connections) = none
  | [], _, _, L, hmem => absurd hmem (List.not_mem_nil L)
  | m :: ms, st, hInv, L, hmem => by
    rw [show (m :: ms).foldl (cleanupOne now) st
        = ms.foldl (cleanupOne now) (cleanupOne now st m) from rfl]
    by_cases hne : L = m
    · subst hne
      apply fold_none_stays now ms (cleanupOne now st L) (inv_cleanupOne now L hInv) L
      rw [cleanupOne_eq now L hInv]
      exact alookup_aerase_self hInv.nodupAC
    · rcases List.mem_cons.mp hmem with he | he
      · exact absurd he hne
      · exact fold_removes_mem now ms (cleanupOne now st m)
          (inv_cleanupOne now m hInv) L he

/-- C5 (amended): the idle sweep removes a lobby exactly when its idle time
strictly exceeds the threshold at sweep time, and every broadcast refreshes
the lobby's activity timestamp. Inbound messages by themselves do not touch
the timestamp (see the ping counterexample). -/
theorem reaper_removes_iff_idle {st : ManagerState} {L : String} {t : Int} {cs : List Nat}
    (hInv : Inv st)
    (hcs : alookup L st.active_connections = some cs)
    (ht : alookup L st.last_activity = some t) (now : Int) :
    (alookup L (cleanup_inactive_lobbies st now 3600).active_connections = none
      ↔ 3600 < now - t) ∧
    (∀ (m : OutMsg) (now2 : Int) (fails : Nat → Bool),
      alookup L ((broadcast st L m now2 fails).1).last_activity = some now2) := by
  constructor
  · unfold cleanup_inactive_lobbies
    constructor
    · intro hnone
      by_contra hnot
      have hLnot : L ∉ (st.last_activity.filter
          (fun p => decide ((3600 : Int) < now - p.2))).map Prod.fst := by
        intro hmem
        obtain ⟨p, hp, hfst⟩ := List.mem_map.mp hmem
        obtain ⟨hpmem, hcond⟩ := List.mem_filter.mp hp
        have hl := mem_alookup_of_keysNodup hInv.nodupLA hpmem
        rw [hfst, ht] at hl
        injection hl with hl
        rw [← hl] at hcond
        exact hnot (of_decide_eq_true hcond)
      rw [fold_preserves_other now _ st hInv L hLnot, hcs] at hnone
      exact Option.noConfusion hnone
    · intro hcond
      apply fold_removes_mem now _ st hInv L
      refine List.mem_map.mpr ⟨(L, t), List.mem_filter.mpr ⟨alookup_some_mem ht, ?_⟩, rfl⟩
      exact decide_eq_true hcond
  · intro m now2 fails
    unfold broadcast broadcastState
    simp only [hcs]
    exact alookup_aset_self _ _ _

theorem reaper_witness :
    ((alookup "AB" (cleanup_inactive_lobbies stW 5000 3600).active_connections = none
      ↔ 3600 < (5000 : Int) - 0) ∧
    (∀ (m : OutMsg) (now2 : Int) (fails : Nat → Bool),
      alookup "AB" ((broadcast stW "AB" m now2 fails).1).last_activity = some now2)) ∧
    (3600 : Int) < 5000 - 0 :=
  ⟨@reaper_removes_iff_idle stW "AB" 0 [1] (reach_inv stW_reach) (by decide) (by decide) 5000,
   by decide⟩

/-- C5 counterexample: an inbound envelope of type ping received at instant
100 on the goat's connection leaves the registry - in particular the lobby's
activity timestamp, still 0 - completely unchanged, so an inbound message
does not by itself reset the idle clock as the specification claims. -/
theorem inbound_ping_does_not_touch_activity :
    (handleMessage stW 1 ⟨"ping", "", 7, false⟩ 100 (Except.ok ⟨some "r", true, []⟩)).1
      = stW ∧
    alookup "AB" (handleMessage stW 1 ⟨"ping", "", 7, false⟩ 100
      (Except.ok ⟨some "r", true, []⟩)).1.last_activity = some 0 ∧
    (handleMessage stW 1 ⟨"ping", "", 7, false⟩ 100 (Except.ok ⟨some "r", true, []⟩)).2
      = [OutEvent.personal 1 (OutMsg.pong 7)] ∧
    (0 : Int) ≠ 100 := by
  refine ⟨by decide, by decide, by decide, by decide⟩

/-! ### The lobby-code generator never fails -/

/-- C7 (amended): the generator scans the stream of random draws and returns
the first candidate not present in the registry; when every draw collides it
is still scanning (none) - the source loop has no retry bound and no failure
outcome. A returned code is one of the draws, hence six characters over the
uppercase-plus-digits alphabet whenever the random source respects that. -/
theorem generate_code_first_unused {st : ManagerState} :
    ∀ draws : List String,
      ((∀ d ∈ draws, (alookup d st.active_connections).isSome) →
        generate_lobby_code st draws = none) ∧
      (∀ c, generate_lobby_code st draws = some c →
        alookup c st.active_connections = none ∧
        c ∈ draws ∧
        ((∀ d ∈ draws, ValidDraw d) → ValidDraw c) ∧
        ∃ pre post, draws = pre ++ c :: post ∧
          ∀ d ∈ pre, (alookup d st.active_connections).isSome) := by
  intro draws
  induction draws with
  | nil =>
    constructor
    · intro
      rfl
    · intro c h
      exact absurd h (by simp [generate_lobby_code])
  | cons d rest ih =>
    constructor
    · intro hall
      unfold generate_lobby_code
      rw [if_pos (hall d (List.mem_cons_self d rest))]
      exact ih.1 (fun x hx => hall x (List.mem_cons_of_mem d hx))
    · intro c h
      unfold generate_lobby_code at h
      by_cases hd : (alookup d st.active_connections).isSome
      · rw [if_pos hd] at h
        obtain ⟨h1, h2, h3, pre, post, h4, h5⟩ := ih.2 c h
        refine ⟨h1, List.mem_cons_of_mem d h2,
          fun hv => h3 (fun x hx => hv x (List.mem_cons_of_mem d hx)),
          d :: pre, post, by simp [h4], ?_⟩
        intro x hx
        rcases List.mem_cons.mp hx with he | he
        · exact he ▸ hd
        · exact h5 x he
      · rw [if_neg hd] at h
        injection h with h
        subst h
        refine ⟨Option.not_isSome_iff_eq_none.mp hd, List.mem_cons_self d rest,
          fun hv => hv d (List.mem_cons_self d rest), [], rest, rfl, ?_⟩
        intro x hx
        exact absurd hx (List.not_mem_nil x)

theorem generate_code_witness :
    generate_lobby_code stC (List.replicate 3 "AAAAAA") = none ∧
    generate_lobby_code stC ["AAAAAA", "BBBBBB"] = some "BBBBBB" :=
  ⟨(@generate_code_first_unused stC (List.replicate 3 "AAAAAA")).1 (by decide),
   by decide⟩

/-- C7 counterexample: with the single lobby code AAAAAA occupied, a run of
one thousand colliding draws leaves the generator still retrying - it has not
terminated with any failure - and the thousand-and-first draw is simply
returned; no CodeExhaustion outcome exists after max_attempts draws, contrary
to the claim. -/
theorem generate_code_never_exhausts :
    generate_lobby_code stC (List.replicate 1000 "AAAAAA") = none ∧
    generate_lobby_code stC (List.replicate 1000 "AAAAAA" ++ ["BBBBBB"])
      = some "BBBBBB" := by
  have hnone : ∀ n, generate_lobby_code stC (List.replicate n "AAAAAA") = none := by
    intro n
    induction n with
    | zero => rfl
    | succ k ih =>
      rw [List.replicate_succ]
      unfold generate_lobby_code
      rw [if_pos (by decide)]
      exact ih
  have hfind : ∀ n, generate_lobby_code stC (List.replicate n "AAAAAA" ++ ["BBBBBB"])
      = some "BBBBBB" := by
    intro n
    induction n with
    | zero => decide
    | succ k ih =>
      rw [List.replicate_succ, List.cons_append]
      unfold generate_lobby_code
      rw [if_pos (by decide)]
      exact ih
  exact ⟨hnone 1000, hfind 1000⟩

/-- C8: an inbound envelope whose type tag is none of the recognized kinds is
answered with a single personal error reply carrying the fixed text; the
registry state is returned exactly unchanged (membership, flags, counts and
timestamps included), no broadcast and no close is emitted, and the receive
loop falls through to the next message - dispatch never closes a connection. -/
theorem unknown_message_type_error_only {st : ManagerState} {conn : Nat} {m : InMsg}
    {now : Int} {interp : Except String CmdResult}
    (h1 : m.mtype ≠ "start_game") (h2 : m.mtype ≠ "command")
    (h3 : m.mtype ≠ "ping") (h4 : m.mtype ≠ "get_session_token") :
    handleMessage st conn m now interp
      = (st, [OutEvent.personal conn (OutMsg.errorMsg unknownMsgText)]) := by
  unfold handleMessage
  rw [if_neg h1, if_neg h2, if_neg h3, if_neg h4]

theorem unknown_message_type_witness :
    handleMessage stW 1 ⟨"player_state", "", 0, false⟩ 50 (Except.ok ⟨some "x", true, []⟩)
      = (stW, [OutEvent.personal 1 (OutMsg.errorMsg unknownMsgText)]) :=
  @unknown_message_type_error_only stW 1 ⟨"player_state", "", 0, false⟩ 50
    (Except.ok ⟨some "x", true, []⟩) (by decide) (by decide) (by decide) (by decide)

/-- C9: the command pipeline always produces a structured result and never
lets an exception escape: an unconfigured interpreter client yields the
service-unavailable result with success false; a raising interpreter call
yields the degraded error result with success false; and in general every
exception inside the try body is converted by the outer handler into the
degraded error result rather than re-raised. -/
theorem process_command_degrades_structurally (clientConfigured : Bool)
    (call : Except String LLMMessage) :
    (clientConfigured = false →
      process_command clientConfigured call
        = ⟨some "AI service is currently unavailable. Please check the server configuration.",
           false, []⟩) ∧
    (∀ e, call = Except.error e → clientConfigured = true →
      process_command clientConfigured call
        = ⟨some ("Error processing command: " ++ e), false, []⟩) ∧
    (∀ e, processBody clientConfigured call = Except.error e →
      process_command clientConfigured call
        = ⟨some ("Error processing command: " ++ e), false, []⟩) := by
  refine ⟨?_, ?_, ?_⟩
  · intro hc
    subst hc
    rfl
  · intro e hcall hc
    subst hc
    subst hcall
    rfl
  · intro e hbody
    unfold process_command
    rw [hbody]

theorem process_command_witness :
    process_command false (Except.ok ⟨some "hello", []⟩)
      = ⟨some "AI service is currently unavailable. Please check the server configuration.",
         false, []⟩ ∧
    process_command true (Except.error "timeout")
      = ⟨some ("Error processing command: " ++ "timeout"), false, []⟩ := by
  have h1 := (process_command_degrades_structurally false (Except.ok ⟨some "hello", []⟩)).1 rfl
  have h2 := (process_command_degrades_structurally true
    (Except.error "timeout")).2.1 "timeout" rfl rfl
  exact ⟨h1, h2⟩

/-! ### Single-player director (spec section 4.4)

The repository snapshot contains no implementation of the director task (the
websocket router in src/api/main.py handles no SINGLEPLAYER lobby and emits no
ai_command events), so the component is modelled from the written design and
the claim is settled against that model. Time is a discrete logical clock.
-/

/-- Modelled from the spec: whether a suspension point at instant t runs
before a cancellation instant (none means no cancellation ever arrives); the
task observes cancellation at every suspension point, so nothing scheduled at
or after the cancellation instant happens. -/
def beforeCancel (t : Nat) : Option Nat → Bool
  | none => true
  | some c => decide (t < c)

/-- Modelled from the spec: the ai_command emission instants of one periodic
task whose next emission is due at t, cancelled at the given instant, with
fuel bounding the length of the observation. -/
def emitFrom (interval : Nat) : Nat → Option Nat → Nat → List Nat
  | _, _, 0 => []
  | t, cancel?, fuel + 1 =>
    if beforeCancel t cancel? then t :: emitFrom interval (t + interval) cancel? fuel
    else []

/-- Modelled from the spec: the instant at which a running task is cancelled,
given the terminal event ending it and the possible connection close. -/
def minCancel (te : Nat) : Option Nat → Nat
  | none => te
  | some c => min te c

/-- Modelled from the spec: the full emission schedule of the director for a
single-player connection admitted at instant s, given the ordered terminal
game events and the possible connection-close instant. Each task first waits
the grace delay, then emits every interval; a terminal event cancels the task
and schedules a restart after the cooldown, which only starts if the
connection is still open then. -/
def directorRun (grace interval cooldown : Nat) (close? : Option Nat) (fuel : Nat) :
    Nat → List Nat → List Nat
  | s, [] => emitFrom interval (s + grace) close? fuel
  | s, te :: rest =>
    emitFrom interval (s + grace) (some (minCancel te close?)) fuel ++
    (if beforeCancel (te + cooldown) close? then
      directorRun grace interval cooldown close? fuel (te + cooldown) rest
    else [])

/-- Modelled from the spec: terminal events arrive in order, each no earlier
than the start of the task it interrupts. -/
def ValidTerminals (cooldown : Nat) : Nat → List Nat → Prop
  | _, [] => True
  | s, te :: rest => s ≤ te ∧ ValidTerminals cooldown (te + cooldown) rest

theorem mem_emitFrom {interval : Nat} :
    ∀ {fuel t : Nat} {cancel? : Option Nat} {e : Nat},
      e ∈ emitFrom interval t cancel? fuel → t ≤ e ∧ beforeCancel e cancel? = true := by
  intro fuel
  induction fuel with
  | zero =>
    intro t cancel? e he
    simp [emitFrom] at he
  | succ k ih =>
    intro t cancel? e he
    unfold emitFrom at he
    by_cases hb : beforeCancel t cancel?
    · rw [if_pos hb] at he
      rcases List.mem_cons.mp he with he1 | he1
      · subst he1
        exact ⟨Nat.le_refl _, hb⟩
      · obtain ⟨h1, h2⟩ := ih he1
        exact ⟨Nat.le_trans (Nat.le_add_right t interval) h1, h2⟩
    · rw [if_neg hb] at he
      simp at he

theorem chain_emitFrom (interval : Nat) :
    ∀ (fuel t : Nat) (cancel? : Option Nat),
      (emitFrom interval t cancel? fuel).Chain' (fun a b => a + interval ≤ b)
  | 0, _, _ => List.chain'_nil
  | fuel + 1, t, cancel? => by
    unfold emitFrom
    by_cases hb : beforeCancel t cancel?
    · rw [if_pos hb]
      rw [List.chain'_cons']
      refine ⟨?_, chain_emitFrom interval fuel (t + interval) cancel?⟩
      intro y hy
      exact (mem_emitFrom (List.mem_of_mem_head? hy)).1
    · rw [if_neg hb]
      exact List.chain'_nil

theorem validTerminals_lower (cooldown : Nat) :
    ∀ (ts : List Nat) (s : Nat), ValidTerminals cooldown s ts → ∀ x ∈ ts, s ≤ x
  | [], _, _, x, hx => absurd hx (List.not_mem_nil x)
  | te :: rest, s, h, x, hx => by
    rcases List.mem_cons.mp hx with he | he
    · exact he ▸ h.1
    · have hr := validTerminals_lower cooldown rest (te + cooldown) h.2 x he
      have h1 := h.1
      omega

theorem mem_of_getLast?' : ∀ {l : List Nat} {x : Nat}, l.getLast? = some x → x ∈ l
  | [], x, h => by simp [List.getLast?] at h
  | [a], x, h => by
    simp [List.getLast?] at h
    simp [h]
  | a :: b :: l, x, h => by
    rw [List.getLast?_cons_cons] at h
    exact List.mem_cons_of_mem a (mem_of_getLast?' h)

/-- C6 (spec-modelled): for a single-player goat connection admitted at s, the
director delivers no ai_command before the grace delay of 3 elapses,
successive deliveries are spaced at least the fixed interval of 5 apart,
after a terminal game event no delivery happens until the cooldown of 5 has
elapsed (the restarted task then waits its grace again), and every delivery
happens strictly before the connection close - so events resume only while
the connection is still open. -/
theorem director_schedule_spec (close? : Option Nat) :
    ∀ (terminals : List Nat) (s fuel : Nat), ValidTerminals 5 s terminals →
      (∀ e ∈ directorRun 3 5 5 close? fuel s terminals, s + 3 ≤ e) ∧
      (directorRun 3 5 5 close? fuel s terminals).Chain' (fun a b => a + 5 ≤ b) ∧
      (∀ te ∈ terminals, ∀ e ∈ directorRun 3 5 5 close? fuel s terminals,
        ¬(te < e ∧ e < te + 5)) ∧
      (∀ c, close? = some c → ∀ e ∈ directorRun 3 5 5 close? fuel s terminals, e < c) := by
  intro terminals
  induction terminals with
  | nil =>
    intro s fuel hv
    refine ⟨?_, ?_, ?_, ?_⟩
    · intro e he
      exact (mem_emitFrom he).1
    · exact chain_emitFrom 5 fuel (s + 3) close?
    · intro te hte
      exact absurd hte (List.not_mem_nil te)
    · intro c hc e he
      have h2 := (mem_emitFrom he).2
      rw [hc] at h2
      simpa [beforeCancel] using h2
  | cons te rest ih =>
    intro s fuel hv
    obtain ⟨hste, hvrest⟩ := hv
    have hrun : directorRun 3 5 5 close? fuel s (te :: rest)
        = emitFrom 5 (s + 3) (some (minCancel te close?)) fuel ++
          (if beforeCancel (te + 5) close? then
            directorRun 3 5 5 close? fuel (te + 5) rest
          else []) := rfl
    have hseg : ∀ e ∈ emitFrom 5 (s + 3) (some (minCancel te close?)) fuel,
        s + 3 ≤ e ∧ e < minCancel te close? := by
      intro e he
      obtain ⟨ha, hb⟩ := mem_emitFrom he
      refine ⟨ha, ?_⟩
      simpa [beforeCancel] using hb
    have hminle : minCancel te close? ≤ te := by
      cases close? with
      | none => exact Nat.le_refl te
      | some c => exact Nat.min_le_left te c
    have ihr := ih (te + 5) fuel hvrest
    have hmem_tail : ∀ e ∈ (if beforeCancel (te + 5) close? then
        directorRun 3 5 5 close? fuel (te + 5) rest else []),
        e ∈ directorRun 3 5 5 close? fuel (te + 5) rest := by
      intro e he
      by_cases hb : beforeCancel (te + 5) close?
      · rw [if_pos hb] at he
        exact he
      · rw [if_neg hb] at he
        simp at he
    rw [hrun]
    refine ⟨?_, ?_, ?_, ?_⟩
    · intro e he
      rcases List.mem_append.mp he with h | h
      · exact (hseg e h).1
      · have h8 := ihr.1 e (hmem_tail e h)
        omega
    · apply List.Chain'.append
      · exact chain_emitFrom 5 fuel (s + 3) (some (minCancel te close?))
      · by_cases hb : beforeCancel (te + 5) close?
        · rw [if_pos hb]
          exact ihr.2.1
        · rw [if_neg hb]
          exact List.chain'_nil
      · intro x hx y hy
        have hxmem := mem_of_getLast?' hx
        have hx2 := (hseg x hxmem).2
        have hymem := hmem_tail y (List.mem_of_mem_head? hy)
        have hy2 := ihr.1 y hymem
        omega
    · intro te' hte' e he
      rcases List.mem_cons.mp hte' with hte'e | hte'mem
      · subst hte'e
        rcases List.mem_append.mp he with h | h
        · have h2 := (hseg e h).2
          rintro ⟨hlt, _⟩
          omega
        · have h8 := ihr.1 e (hmem_tail e h)
          rintro ⟨_, hlt2⟩
          omega
      · rcases List.mem_append.mp he with h | h
        · have h2 := (hseg e h).2
          have hlow := validTerminals_lower 5 rest (te + 5) hvrest te' hte'mem
          rintro ⟨hlt, _⟩
          omega
        · exact ihr.2.2.1 te' hte'mem e (hmem_tail e h)
    · intro c hc e he
      rcases List.mem_append.mp he with h | h
      · have h2 := (hseg e h).2
        rw [hc] at h2
        have hmin : minCancel te (some c) ≤ c := Nat.min_le_right te c
        omega
      · exact ihr.2.2.2 c hc e (hmem_tail e h)

theorem director_schedule_witness :
    (∀ e ∈ directorRun 3 5 5 none 3 0 [20], 0 + 3 ≤ e) ∧
    (directorRun 3 5 5 none 3 0 [20]).Chain' (fun a b => a + 5 ≤ b) ∧
    (∀ te ∈ ([20] : List Nat), ∀ e ∈ directorRun 3 5 5 none 3 0 [20],
      ¬(te < e ∧ e < te + 5)) ∧
    (∀ c, (none : Option Nat) = some c → ∀ e ∈ directorRun 3 5 5 none 3 0 [20], e < c) :=
  director_schedule_spec none [20] 0 3 ⟨by omega, trivial⟩

end GoatShell
